import Mathlib

/-!
# Verification of the research-orchestration core

Shallow embedding, in Lean 4, of the algorithmic core of the
`mcp-researchpowerpack` repository: the bounded worker pool
(`src/utils/concurrency.ts`), the consensus aggregator
(`src/utils/url-aggregator.ts`), the retry/backoff policy
(`src/clients/research.ts`, `src/services/llm-processor.ts`) and the
comment-budget allocator, together with proofs of the behavioural
properties stated in the specification.

Numbers: JavaScript numbers are modelled as `ℚ` where fractional
arithmetic matters (scores, delays) and as `ℕ` where the source only
ever holds non-negative integers (positions, frequencies, budgets).
-/

namespace ResearchPowerpack

/-! ## Retry backoff (C7)

From `src/clients/research.ts`:

```ts
const RESEARCH_RETRY_CONFIG = { maxRetries: 3, baseDelayMs: 5000, maxDelayMs: 60000 }

private calculateBackoff(attempt: number): number {
  const exponentialDelay = RESEARCH_RETRY_CONFIG.baseDelayMs * Math.pow(2, attempt);
  const jitter = Math.random() * 0.3 * exponentialDelay;
  return Math.min(exponentialDelay + jitter, RESEARCH_RETRY_CONFIG.maxDelayMs);
}
```

and from `src/services/llm-processor.ts`:

```ts
const LLM_RETRY_CONFIG = { maxRetries: 3, baseDelayMs: 2000, maxDelayMs: 30000 }

function calculateLLMBackoff(attempt: number): number {
  const exponentialDelay = LLM_RETRY_CONFIG.baseDelayMs * Math.pow(2, attempt);
  const jitter = Math.random() * 0.3 * exponentialDelay;
  return Math.min(exponentialDelay + jitter, LLM_RETRY_CONFIG.maxDelayMs);
}
```

`Math.random()` is modelled by an explicit parameter `u` with `0 ≤ u < 1`.
-/

def RESEARCH_RETRY_CONFIG_baseDelayMs : ℚ := 5000

def RESEARCH_RETRY_CONFIG_maxDelayMs : ℚ := 60000

def RESEARCH_RETRY_CONFIG_maxRetries : ℕ := 3

def LLM_RETRY_CONFIG_baseDelayMs : ℚ := 2000

def LLM_RETRY_CONFIG_maxDelayMs : ℚ := 30000

def LLM_RETRY_CONFIG_maxRetries : ℕ := 3

/-- Source `ResearchClient.calculateBackoff`, with `Math.random()` as parameter `u`. -/
def calculateBackoff (u : ℚ) (attempt : ℕ) : ℚ :=
  let exponentialDelay := RESEARCH_RETRY_CONFIG_baseDelayMs * 2 ^ attempt
  let jitter := u * (3 / 10) * exponentialDelay
  min (exponentialDelay + jitter) RESEARCH_RETRY_CONFIG_maxDelayMs

/-- Source `calculateLLMBackoff`, with `Math.random()` as parameter `u`. -/
def calculateLLMBackoff (u : ℚ) (attempt : ℕ) : ℚ :=
  let exponentialDelay := LLM_RETRY_CONFIG_baseDelayMs * 2 ^ attempt
  let jitter := u * (3 / 10) * exponentialDelay
  min (exponentialDelay + jitter) LLM_RETRY_CONFIG_maxDelayMs

/-- The pre-jitter delay `base·2^attempt` of the research client. -/
def researchPreJitterDelay (attempt : ℕ) : ℚ :=
  RESEARCH_RETRY_CONFIG_baseDelayMs * 2 ^ attempt

/-- The pre-jitter delay `base·2^attempt` of the LLM extractor. -/
def llmPreJitterDelay (attempt : ℕ) : ℚ :=
  LLM_RETRY_CONFIG_baseDelayMs * 2 ^ attempt

/-! ## Comment-budget allocator (C5)

The constants come from `src/config/index.ts`:

```ts
export const REDDIT = { ..., MAX_COMMENT_BUDGET: 1000, MAX_COMMENTS_PER_POST: 200, ... }
```
-/

def REDDIT_MAX_COMMENT_BUDGET : ℕ := 1000

def REDDIT_MAX_COMMENTS_PER_POST : ℕ := 200

/-- An allocation plan: total budget, unit count, and the final per-unit
allocations.  The tool handlers consume the field `perPostCapped`
(`src/tools/reddit.ts` line 185: `allocation.perPostCapped`). -/
structure AllocationPlan where
  total : ℕ
  unitCount : ℕ
  perPostCapped : ℕ
  finalAllocations : List ℕ
  deriving Repr, DecidableEq

/-- Modelled from the spec: `calculateCommentAllocation` is implemented in
`src/clients/reddit.ts`, a file absent from this snapshot (only its callers
in `src/tools/reddit.ts` and `src/tools/definitions.ts` are present).
Spec §4.4(b): distribute total `T` across `n` units (guard `n = 0` by
treating it as `1`); `naive = floor(T/n)`; `capped = min(naive, cap)` per
unit; `leftover = T − Σcapped`; if leftover is positive and some unit was
capped, redistribute leftover evenly among capped units, raising each up to
`cap` again.  Since every capped unit already sits exactly at `cap`, the
redistribution pass cannot raise any of them further, so the final per-unit
allocation is `min(naive, cap)` for every unit and any leftover is
forfeited. -/
def calculateCommentAllocation (postCount : ℕ) : AllocationPlan :=
  let n := max postCount 1
  let naive := REDDIT_MAX_COMMENT_BUDGET / n
  let capped := min naive REDDIT_MAX_COMMENTS_PER_POST
  { total := REDDIT_MAX_COMMENT_BUDGET
    unitCount := n
    perPostCapped := capped
    finalAllocations := List.replicate n capped }

/-! ## Bounded worker pool (C1, C9)

From `src/utils/concurrency.ts`:

```ts
export async function pMap<T, R>(items, mapper, concurrency = 6): Promise<R[]> {
  if (items.length === 0) return [];
  const limit = Math.max(1, Math.min(concurrency, items.length));
  const results: R[] = new Array(items.length);
  let nextIndex = 0;
  async function worker(): Promise<void> {
    while (nextIndex < items.length) {
      const index = nextIndex++;
      results[index] = await mapper(items[index], index);
    }
  }
  const workers: Promise<void>[] = [];
  for (let i = 0; i < limit; i++) workers.push(worker());
  await Promise.all(workers);
  return results;
}
```

The JavaScript event loop runs each worker's claim (`const index = nextIndex++`)
atomically; the write `results[index] = …` happens when the awaited promise
settles, in an arbitrary interleaving across workers.  We model the pool as a
transition system: a state holds the shared cursor `next`, one slot per worker
(`some i` while worker `w` is awaiting item `i`, `none` when it is between
iterations), and the results array (`none` = hole of `new Array(n)`).  A step
is either a claim (an idle worker reads and increments the cursor) or a
completion (a worker's awaited call settles and its result is written at the
claimed index).  Completion order is fully nondeterministic, which is exactly
the "regardless of completion order" side condition of the spec.

`pMapSettled` (same file, lines 58–89) differs only in what it writes on
completion: a `{status:'fulfilled', value}` / `{status:'rejected', reason}`
marker computed from the settled promise instead of the raw value.  Both are
instances of one machine parameterized by the per-item write `out`.
-/

/-- Source `Math.max(1, Math.min(concurrency, items.length))` (line 27 / line 65). -/
def pMapLimit (concurrency n : ℕ) : ℕ := max 1 (min concurrency n)

/-- Pool state: shared cursor, one slot per worker, positional results. -/
structure PoolState (σ : Type) where
  next : ℕ
  workers : List (Option ℕ)
  results : List (Option σ)

/-- One scheduler step of the pool, for items `items` and per-item write
`out x i` (for `pMap`, `out` is the mapper; for `pMapSettled`, the settled
marker of the mapper). -/
inductive PoolStep (items : List τ) (out : τ → ℕ → σ) :
    PoolState σ → PoolState σ → Prop where
  | claim (s : PoolState σ) (w : ℕ)
      (hw : s.workers[w]? = some none)
      (hn : s.next < items.length) :
      PoolStep items out s
        ⟨s.next + 1, s.workers.set w (some s.next), s.results⟩
  | complete (s : PoolState σ) (w i : ℕ) (x : τ)
      (hw : s.workers[w]? = some (some i))
      (hx : items[i]? = some x) :
      PoolStep items out s
        ⟨s.next, s.workers.set w none, s.results.set i (some (out x i))⟩

/-- Initial pool state: cursor 0, `limit` idle workers, all result cells holes. -/
def poolInit (items : List τ) (concurrency : ℕ) : PoolState σ :=
  ⟨0, List.replicate (pMapLimit concurrency items.length) none,
    List.replicate items.length none⟩

/-- States reachable by the scheduler from the initial state. -/
def PoolReach (items : List τ) (out : τ → ℕ → σ) (concurrency : ℕ)
    (s : PoolState σ) : Prop :=
  Relation.ReflTransGen (PoolStep items out) (poolInit items concurrency) s

/-- A terminal state: the cursor is exhausted and every worker's loop has
finished its last awaited call (`Promise.all(workers)` has resolved). -/
def PoolTerminal (items : List τ) (s : PoolState σ) : Prop :=
  s.next = items.length ∧ ∀ ws ∈ s.workers, ws = none

/-- Scheduler invariant: the results array keeps its length, and every claimed
index is either pending at some worker or already written with its own item's
output. -/
structure PoolInv (items : List τ) (out : τ → ℕ → σ) (s : PoolState σ) : Prop where
  results_len : s.results.length = items.length
  claimed : ∀ i, i < s.next →
    (∃ w : ℕ, s.workers[w]? = some (some i)) ∨
    (∃ x, items[i]? = some x ∧ s.results[i]? = some (some (out x i)))

/-- The two possible entries of `pMapSettled`'s result array
(`PromiseSettledResult<R>`). -/
inductive SettledResult (ρ ε : Type) where
  | fulfilled (value : ρ)
  | rejected (reason : ε)
  deriving Repr, DecidableEq

/-- The marker `pMapSettled` writes for one item: `{status:'fulfilled', value}`
when the mapper's promise resolves, `{status:'rejected', reason}` when it
rejects (lines 73–78). -/
def settleOutcome (r : Except ε ρ) : SettledResult ρ ε :=
  match r with
  | .ok v => .fulfilled v
  | .error e => .rejected e

/-! ## Consensus aggregator (C2, C3, C4, C6, C10)

From `src/utils/url-aggregator.ts` and `src/config/index.ts`. -/

/-- Source `CTR_WEIGHTS` from `src/config/index.ts`: a partial `Record<number, number>`
for positions 1–10. -/
def CTR_WEIGHTS (position : ℕ) : Option ℚ :=
  match position with
  | 1 => some 100
  | 2 => some 60
  | 3 => some (4889 / 100)
  | 4 => some (3333 / 100)
  | 5 => some (2889 / 100)
  | 6 => some (2644 / 100)
  | 7 => some (2444 / 100)
  | 8 => some (1778 / 100)
  | 9 => some (1333 / 100)
  | 10 => some (1256 / 100)
  | _ => none

/-- Source `getCtrWeight` (lines 55–61): table lookup for 1–10 (`?? 0`), diminishing
returns `max(0, 10 − (position − 10) · 0.5)` outside that range.  The
subtraction is on JavaScript numbers, hence over `ℚ`. -/
def getCtrWeight (position : ℕ) : ℚ :=
  if 1 ≤ position ∧ position ≤ 10 then (CTR_WEIGHTS position).getD 0
  else max 0 (10 - ((position : ℚ) - 10) * (1 / 2))

/-- One entry of `KeywordSearchResult.results`.  The type itself lives in
`src/clients/search.ts`, which is absent from this snapshot; the fields are
exactly those the aggregator reads: `link`, `title`, `snippet`, `position`. -/
structure SearchResultItem where
  link : String
  title : String
  snippet : String
  position : ℕ
  deriving Repr, DecidableEq

/-- One keyword query together with its ordered result list. -/
structure KeywordSearchResult where
  keyword : String
  results : List SearchResultItem
  deriving Repr, DecidableEq

/-- Source `AggregatedUrl` (lines 13–22). -/
structure AggregatedUrl where
  url : String
  title : String
  snippet : String
  frequency : ℕ
  positions : List ℕ
  queries : List String
  bestPosition : ℕ
  totalScore : ℚ
  deriving Repr, DecidableEq

/-- Source `RankedUrl` (lines 27–38). -/
structure RankedUrl where
  url : String
  title : String
  snippet : String
  rank : ℕ
  score : ℚ
  frequency : ℕ
  positions : List ℕ
  queries : List String
  bestPosition : ℕ
  isConsensus : Bool
  deriving Repr, DecidableEq

/-- The components of a parsed URL that `normalizeUrl` reads.  Models the
platform's WHATWG `URL` constructor (a JavaScript builtin, not repository
code): `hostname` is the canonicalized (lowercased) host without port,
`pathname` the path as written (`new URL` additionally canonicalizes an
absent path of a special scheme to `"/"`; `normalizeUrl`'s own `|| '/'`
branch makes that difference unobservable), `search` the query including its
leading `?`, or empty.  The model covers ordinary
`scheme://host[:port][/path][?query][#fragment]` identifiers: parsing fails
on an empty or non-alphabetic scheme or an empty host, and performs no
percent-encoding or dot-segment normalization. -/
structure ParsedUrl where
  hostname : String
  pathname : String
  search : String
  deriving Repr, DecidableEq

/-- Splits `l` at the first occurrence of `"://"`; `none` when absent. -/
def splitSchemeSep : List Char → Option (List Char × List Char)
  | [] => none
  | ':' :: '/' :: '/' :: rest => some ([], rest)
  | c :: rest => (splitSchemeSep rest).map (fun p => (c :: p.1, p.2))

/-- Model of the platform `URL` constructor (see `ParsedUrl`). -/
def parseUrl (url : String) : Option ParsedUrl :=
  match splitSchemeSep url.data with
  | none => none
  | some (scheme, rest) =>
    if scheme ≠ [] ∧ scheme.all Char.isAlpha then
      let authority := rest.takeWhile (fun c => !(c == '/' || c == '?' || c == '#'))
      let afterAuthority := rest.drop authority.length
      let host := authority.takeWhile (fun c => !(c == ':'))
      if host = [] then none
      else
        let path := afterAuthority.takeWhile (fun c => !(c == '?' || c == '#'))
        let afterPath := afterAuthority.drop path.length
        let search := afterPath.takeWhile (fun c => !(c == '#'))
        some ⟨⟨host.map Char.toLower⟩, ⟨path⟩, ⟨search⟩⟩
    else none

/-- Source `.replace(/\/$/, '')`: strip one trailing slash. -/
def stripOneTrailingSlash (l : List Char) : List Char :=
  if l.getLast? = some '/' then l.dropLast else l

/-- Whether a character list starts with `"www."`. -/
def startsWithWww : List Char → Bool
  | 'w' :: 'w' :: 'w' :: '.' :: _ => true
  | _ => false

/-- Source `.replace(/^www\./, '')`: strip one leading `"www."`. -/
def stripLeadingWww (l : List Char) : List Char :=
  if startsWithWww l then l.drop 4 else l

/-- Source `.toLowerCase()`, characterwise. -/
def toLowerChars (l : List Char) : List Char := l.map Char.toLower

/-- Source `normalizeUrl` (lines 109–118):

```ts
function normalizeUrl(url: string): string {
  try {
    const parsed = new URL(url);
    let host = parsed.hostname.replace(/^www\./, '');
    let path = parsed.pathname.replace(/\/$/, '') || '/';
    return `${host}${path}${parsed.search}`.toLowerCase();
  } catch {
    return url.toLowerCase().replace(/\/$/, '');
  }
}
```
-/
def normalizeUrl (url : String) : String :=
  match parseUrl url with
  | some parsed =>
    let host := stripLeadingWww parsed.hostname.data
    let path0 := stripOneTrailingSlash parsed.pathname.data
    let path := if path0 = [] then ['/'] else path0
    ⟨toLowerChars (host ++ path ++ parsed.search.data)⟩
  | none => ⟨stripOneTrailingSlash (toLowerChars url.data)⟩

/-- Source `Map.get`: first binding of key `k` in an insertion-ordered association
list (the model of a JavaScript `Map`). -/
def assocFind? (m : List (String × α)) (k : String) : Option α :=
  (m.find? (fun kv => kv.1 == k)).map Prod.snd

/-- In-place update of the binding of key `k` (`Map.set` on a present key
keeps the entry's position). -/
def assocUpdate (m : List (String × α)) (k : String) (v : α) : List (String × α) :=
  m.map (fun kv => if kv.1 == k then (k, v) else kv)

/-- The body of `aggregateResults`' inner loop (lines 71–99): merge one search
result of query `keyword` into the url map. -/
def aggregateStep (keyword : String) (result : SearchResultItem)
    (urlMap : List (String × AggregatedUrl)) : List (String × AggregatedUrl) :=
  let normalizedUrl := normalizeUrl result.link
  match assocFind? urlMap normalizedUrl with
  | some existing =>
    let prevBest := existing.bestPosition
    let updated : AggregatedUrl :=
      { existing with
        frequency := existing.frequency + 1
        positions := existing.positions ++ [result.position]
        queries := existing.queries ++ [keyword]
        bestPosition := min existing.bestPosition result.position
        totalScore := existing.totalScore + getCtrWeight result.position
        title := if result.position < prevBest then result.title else existing.title
        snippet := if result.position < prevBest then result.snippet else existing.snippet }
    assocUpdate urlMap normalizedUrl updated
  | none =>
    urlMap ++ [(normalizedUrl,
      { url := result.link
        title := result.title
        snippet := result.snippet
        frequency := 1
        positions := [result.position]
        queries := [keyword]
        bestPosition := result.position
        totalScore := getCtrWeight result.position })]

/-- Source `aggregateResults` (lines 67–103): fold every result of every search into
an insertion-ordered url map. -/
def aggregateResults (searches : List KeywordSearchResult) :
    List (String × AggregatedUrl) :=
  searches.foldl
    (fun urlMap search =>
      search.results.foldl
        (fun urlMap result => aggregateStep search.keyword result urlMap) urlMap)
    []

/-- Source `filterByFrequency` (lines 124–137): values of the map with
`frequency >= minFrequency`, in map order. -/
def filterByFrequency (urlMap : List (String × AggregatedUrl))
    (minFrequency : ℕ) : List AggregatedUrl :=
  (urlMap.map Prod.snd).filter (fun url => decide (minFrequency ≤ url.frequency))

/-- Source `calculateWeightedScores` (lines 143–165): sort by total score descending
(JavaScript's stable sort with comparator `b.totalScore - a.totalScore`),
normalize against the first (maximal) entry, assign ranks `index + 1`. -/
def calculateWeightedScores (urls : List AggregatedUrl) : List RankedUrl :=
  if urls.isEmpty then []
  else
    let sorted := urls.mergeSort (fun a b => decide (b.totalScore ≤ a.totalScore))
    let maxScore := match sorted.head? with
      | some u => u.totalScore
      | none => 0
    sorted.mapIdx (fun index url =>
      { url := url.url
        title := url.title
        snippet := url.snippet
        rank := index + 1
        score := if 0 < maxScore then url.totalScore / maxScore * 100 else 0
        frequency := url.frequency
        positions := url.positions
        queries := url.queries
        bestPosition := url.bestPosition
        isConsensus := decide (3 ≤ url.frequency) })

/-- Source `AggregationResult` (lines 43–49). -/
structure AggregationResult where
  rankedUrls : List RankedUrl
  totalUniqueUrls : ℕ
  totalQueries : ℕ
  frequencyThreshold : ℕ
  thresholdNote : Option String
  deriving Repr, DecidableEq

/-- The advisory note of `aggregateAndRank` (line 330). -/
def thresholdNoteWeb (threshold : ℕ) : String :=
  s!"Note: Frequency filter lowered to ≥{threshold} due to result diversity."

/-- The `for (const threshold of thresholds)` loop of `aggregateAndRank`
(lines 317–334), carrying the loop variable `rankedUrls` (initially `[]`,
used when the list is exhausted without a break, together with the initial
`usedThreshold = 3` and no note). -/
def aggregateAndRankLoop (urlMap : List (String × AggregatedUrl))
    (minConsensusUrls : ℕ) :
    List ℕ → List RankedUrl → List RankedUrl × ℕ × Option String
  | [], rankedUrls => (rankedUrls, 3, none)
  | threshold :: rest, _ =>
    let filtered := filterByFrequency urlMap threshold
    let rankedUrls := calculateWeightedScores filtered
    if minConsensusUrls ≤ rankedUrls.length ∨ threshold = 1 then
      (rankedUrls, threshold,
        if threshold < 3 then some (thresholdNoteWeb threshold) else none)
    else aggregateAndRankLoop urlMap minConsensusUrls rest rankedUrls

/-- Source `aggregateAndRank` (lines 309–343): thresholds `[3, 2, 1]`, default
`minConsensusUrls = 5`. -/
def aggregateAndRank (searches : List KeywordSearchResult)
    (minConsensusUrls : ℕ := 5) : AggregationResult :=
  let urlMap := aggregateResults searches
  let r := aggregateAndRankLoop urlMap minConsensusUrls [3, 2, 1] []
  { rankedUrls := r.1
    totalUniqueUrls := urlMap.length
    totalQueries := searches.length
    frequencyThreshold := r.2.1
    thresholdNote := r.2.2 }

/-- One entry of a Reddit search's result list (`RedditSearchResult` from
`src/clients/search.ts`, absent from this snapshot; the fields are exactly
those the aggregator reads: `url`, `title`, `snippet`, `date`). -/
structure RedditSearchResult where
  url : String
  title : String
  snippet : String
  date : Option String
  deriving Repr, DecidableEq

/-- Source `AggregatedRedditUrl` (lines 376–386). -/
structure AggregatedRedditUrl where
  url : String
  title : String
  snippet : String
  date : Option String
  frequency : ℕ
  positions : List ℕ
  queries : List String
  bestPosition : ℕ
  totalScore : ℚ
  deriving Repr, DecidableEq

/-- Source `RankedRedditUrl` (lines 391–403). -/
structure RankedRedditUrl where
  url : String
  title : String
  snippet : String
  date : Option String
  rank : ℕ
  score : ℚ
  frequency : ℕ
  positions : List ℕ
  queries : List String
  bestPosition : ℕ
  isConsensus : Bool
  deriving Repr, DecidableEq

/-- Source `RedditAggregationResult` (lines 408–414). -/
structure RedditAggregationResult where
  rankedUrls : List RankedRedditUrl
  totalUniqueUrls : ℕ
  totalQueries : ℕ
  frequencyThreshold : ℕ
  thresholdNote : Option String
  deriving Repr, DecidableEq

/-- The body of `aggregateRedditResults`' inner loop (lines 425–457), with
`position = i + 1`. -/
def aggregateRedditStep (query : String) (result : RedditSearchResult)
    (position : ℕ) (urlMap : List (String × AggregatedRedditUrl)) :
    List (String × AggregatedRedditUrl) :=
  let normalizedUrl := normalizeUrl result.url
  match assocFind? urlMap normalizedUrl with
  | some existing =>
    let prevBest := existing.bestPosition
    let updated : AggregatedRedditUrl :=
      { existing with
        frequency := existing.frequency + 1
        positions := existing.positions ++ [position]
        queries := existing.queries ++ [query]
        bestPosition := min existing.bestPosition position
        totalScore := existing.totalScore + getCtrWeight position
        title := if position < prevBest then result.title else existing.title
        snippet := if position < prevBest then result.snippet else existing.snippet
        date := if position < prevBest then result.date else existing.date }
    assocUpdate urlMap normalizedUrl updated
  | none =>
    urlMap ++ [(normalizedUrl,
      { url := result.url
        title := result.title
        snippet := result.snippet
        date := result.date
        frequency := 1
        positions := [position]
        queries := [query]
        bestPosition := position
        totalScore := getCtrWeight position })]

/-- Source `aggregateRedditResults` (lines 419–461): the input `Map` iterates in
insertion order, modelled as an association list; positions are `i + 1`
within each query's list. -/
def aggregateRedditResults (searches : List (String × List RedditSearchResult)) :
    List (String × AggregatedRedditUrl) :=
  searches.foldl
    (fun urlMap qr =>
      qr.2.enum.foldl
        (fun urlMap ir => aggregateRedditStep qr.1 ir.2 (ir.1 + 1) urlMap) urlMap)
    []

/-- Source `filterRedditByFrequency` (lines 466–479). -/
def filterRedditByFrequency (urlMap : List (String × AggregatedRedditUrl))
    (minFrequency : ℕ) : List AggregatedRedditUrl :=
  (urlMap.map Prod.snd).filter (fun url => decide (minFrequency ≤ url.frequency))

/-- Source `calculateRedditWeightedScores` (lines 484–507); the consensus flag uses
the lower Reddit threshold `frequency >= 2`. -/
def calculateRedditWeightedScores (urls : List AggregatedRedditUrl) :
    List RankedRedditUrl :=
  if urls.isEmpty then []
  else
    let sorted := urls.mergeSort (fun a b => decide (b.totalScore ≤ a.totalScore))
    let maxScore := match sorted.head? with
      | some u => u.totalScore
      | none => 0
    sorted.mapIdx (fun index url =>
      { url := url.url
        title := url.title
        snippet := url.snippet
        date := url.date
        rank := index + 1
        score := if 0 < maxScore then url.totalScore / maxScore * 100 else 0
        frequency := url.frequency
        positions := url.positions
        queries := url.queries
        bestPosition := url.bestPosition
        isConsensus := decide (2 ≤ url.frequency) })

/-- The advisory note of `aggregateAndRankReddit` (line 533). -/
def thresholdNoteReddit (threshold : ℕ) : String :=
  s!"Note: Frequency filter set to ≥{threshold} due to result diversity across queries."

/-- The threshold loop of `aggregateAndRankReddit` (lines 526–537):
thresholds `[2, 1]`, initial `usedThreshold = 2`, note only when
`threshold < 2 && totalQueries > 1`. -/
def aggregateAndRankRedditLoop (urlMap : List (String × AggregatedRedditUrl))
    (minConsensusUrls totalQueries : ℕ) :
    List ℕ → List RankedRedditUrl → List RankedRedditUrl × ℕ × Option String
  | [], rankedUrls => (rankedUrls, 2, none)
  | threshold :: rest, _ =>
    let filtered := filterRedditByFrequency urlMap threshold
    let rankedUrls := calculateRedditWeightedScores filtered
    if minConsensusUrls ≤ rankedUrls.length ∨ threshold = 1 then
      (rankedUrls, threshold,
        if threshold < 2 ∧ 1 < totalQueries then some (thresholdNoteReddit threshold)
        else none)
    else aggregateAndRankRedditLoop urlMap minConsensusUrls totalQueries rest rankedUrls

/-- Source `aggregateAndRankReddit` (lines 512–546), default `minConsensusUrls = 3`. -/
def aggregateAndRankReddit (searches : List (String × List RedditSearchResult))
    (minConsensusUrls : ℕ := 3) : RedditAggregationResult :=
  let urlMap := aggregateRedditResults searches
  let totalQueries := searches.length
  let r := aggregateAndRankRedditLoop urlMap minConsensusUrls totalQueries [2, 1] []
  { rankedUrls := r.1
    totalUniqueUrls := urlMap.length
    totalQueries := totalQueries
    frequencyThreshold := r.2.1
    thresholdNote := r.2.2 }

/-! ## Best-position metadata invariant of the merge pass (C4) -/

/-- The flattened `(keyword, result)` pairs of a search batch, in the order
`aggregateResults`' nested loops visit them. -/
def searchPairs (searches : List KeywordSearchResult) : List (String × SearchResultItem) :=
  searches.flatMap (fun s => s.results.map (fun r => (s.keyword, r)))

/-- Source `aggregateResults` as a single fold over flattened pairs. -/
def aggregatePairs (pairs : List (String × SearchResultItem))
    (urlMap : List (String × AggregatedUrl)) : List (String × AggregatedUrl) :=
  pairs.foldl (fun m p => aggregateStep p.1 p.2 m) urlMap

/-- The occurrences that normalize to key `k`, in visit order. -/
def keyOccurrences (pairs : List (String × SearchResultItem)) (k : String) :
    List SearchResultItem :=
  (pairs.map Prod.snd).filter (fun r => normalizeUrl r.link == k)

/-- The data-model invariant tying one aggregated entry to its occurrence
list: frequency counts occurrences, positions list them in order, the best
position is a lower bound of all of them, and the stored title and snippet
come from an occurrence whose position is exactly the best position. -/
def AggEntrySpec (e : AggregatedUrl) (occs : List SearchResultItem) : Prop :=
  occs ≠ [] ∧
  e.frequency = occs.length ∧
  e.positions = occs.map SearchResultItem.position ∧
  (∀ p ∈ e.positions, e.bestPosition ≤ p) ∧
  ∃ r ∈ occs, r.position = e.bestPosition ∧ e.title = r.title ∧ e.snippet = r.snippet

/-- The url map built from a pair list matches the per-key occurrence lists. -/
def UrlMapMatches (pairs : List (String × SearchResultItem))
    (m : List (String × AggregatedUrl)) : Prop :=
  ∀ k : String,
    (assocFind? m k = none → keyOccurrences pairs k = []) ∧
    (∀ e, assocFind? m k = some e → AggEntrySpec e (keyOccurrences pairs k))

/-- Example batch: the same URL returned by three queries at positions
[1, 1, 5], the position-5 occurrence processed last. -/
def exampleSearches115 : List KeywordSearchResult :=
  [⟨"q1", [⟨"http://example.com/a", "T1", "S1", 1⟩]⟩,
   ⟨"q2", [⟨"http://example.com/a", "T1b", "S1b", 1⟩]⟩,
   ⟨"q3", [⟨"http://example.com/a", "T5", "S5", 5⟩]⟩]

/-- Example batch: the same URL first seen at position 5, then at the
strictly better position 1. -/
def exampleSearchesOverride : List KeywordSearchResult :=
  [⟨"q1", [⟨"http://example.com/a", "Tlate5", "Slate5", 5⟩]⟩,
   ⟨"q2", [⟨"http://example.com/a", "Tbetter1", "Sbetter1", 1⟩]⟩]

/-! ## Retry executor and error classification (C8)

`ResearchClient.executeResearch` (`src/clients/research.ts` lines 367–462) and
`processContentWithLLM` (`src/services/llm-processor.ts` lines 169–232) share
one retry shape: attempts `0..maxRetries`; a thrown (raw) failure is retried
only when the site's retryability predicate accepts it and attempts remain,
otherwise the loop breaks and the classified failure is returned as a tagged
result — never re-thrown.  The raw call is modelled as `op : ℕ → Except ε α`
(`.error` = the promise rejected).  The in-band empty-response branches
(success-shaped responses with no content) are separate code paths not part of
this claim.  Cancellation of the LLM sleep is likewise out of scope. -/

/-- Modelled from the spec: the `ErrorCode` enumeration lives in
`src/utils/errors.ts`, absent from this snapshot; members are the taxonomy of
spec §7 plus the codes referenced by the present sources. -/
inductive ErrorCode where
  | RATE_LIMITED
  | TRANSIENT_SERVER
  | TIMEOUT
  | CONNECTION_FAILURE
  | VALIDATION
  | AUTH_ERROR
  | NOT_FOUND
  | UNKNOWN_ERROR
  | INTERNAL_ERROR
  | INVALID_INPUT
  deriving Repr, DecidableEq

/-- Source `StructuredError` (spec §3 / `src/utils/errors.ts`). -/
structure StructuredError where
  code : ErrorCode
  message : String
  retryable : Bool
  deriving Repr, DecidableEq

/-- The fields of a raw thrown error that `ResearchClient.isRetryableError`
reads: `status?: number`, `message?: string`. -/
structure RawError where
  status : Option ℕ
  message : String
  deriving Repr, DecidableEq

/-- The fields of a raw thrown error that `isRetryableLLMError` reads. -/
structure LLMRawError where
  status : Option ℕ
  code : Option String
  errorCode : Option String
  errorType : Option String
  message : String
  deriving Repr, DecidableEq

/-- Substring test on character lists (`String.prototype.includes`). -/
def containsSub (l pat : List Char) : Bool :=
  l.tails.any (fun t => pat.isPrefixOf t)

/-- Source `message.includes(pat)` after the source's `.toLowerCase()`. -/
def lowerMessageHas (message : String) (pat : String) : Bool :=
  containsSub (toLowerChars message.data) pat.data

/-- Source `RETRYABLE_RESEARCH_CODES = new Set([429, 500, 502, 503, 504])`. -/
def RETRYABLE_RESEARCH_CODES : List ℕ := [429, 500, 502, 503, 504]

/-- Source `ResearchClient.isRetryableError` (lines 269–296): retryable HTTP status
codes, else lower-cased message-pattern matches.  `err.status &&` makes a
status of 0 falsy, hence the `s ≠ 0` guard. -/
def isRetryableResearchError (e : RawError) : Bool :=
  (match e.status with
    | some s => decide (s ≠ 0) && RETRYABLE_RESEARCH_CODES.contains s
    | none => false) ||
  (lowerMessageHas e.message "rate limit" ||
   lowerMessageHas e.message "timeout" ||
   lowerMessageHas e.message "timed out" ||
   lowerMessageHas e.message "service unavailable" ||
   lowerMessageHas e.message "connection")

/-- Source `RETRYABLE_LLM_ERROR_CODES` (`src/services/llm-processor.ts` lines 38–43). -/
def RETRYABLE_LLM_ERROR_CODES : List String :=
  ["rate_limit_exceeded", "server_error", "timeout", "service_unavailable"]

/-- JavaScript `a || b` over possibly-absent strings: an empty string is
falsy. -/
def firstTruthy (a b : Option String) : Option String :=
  match a with
  | some s => if s = "" then b else some s
  | none => b

/-- Source `isRetryableLLMError` (lines 64–101): retryable HTTP status codes, then
the OpenRouter error code `err.code || err.error?.code || err.error?.type`,
then lower-cased message patterns. -/
def isRetryableLLMError (e : LLMRawError) : Bool :=
  (match e.status with
    | some s => decide (s = 429 ∨ s = 500 ∨ s = 502 ∨ s = 503 ∨ s = 504)
    | none => false) ||
  (match firstTruthy e.code (firstTruthy e.errorCode e.errorType) with
    | some c => RETRYABLE_LLM_ERROR_CODES.contains c
    | none => false) ||
  (lowerMessageHas e.message "rate limit" ||
   lowerMessageHas e.message "timeout" ||
   lowerMessageHas e.message "timed out" ||
   lowerMessageHas e.message "service unavailable" ||
   lowerMessageHas e.message "server error" ||
   lowerMessageHas e.message "connection" ||
   lowerMessageHas e.message "econnreset")

/-- The retry loop, from attempt `attempt` with `remaining` retries left:
run `op attempt`; on success stop; on a raw failure retry (after backoff)
only when the failure is retryable and retries remain, else stop.  Returns
the final outcome together with the index of the last attempt executed. -/
def retryRunAux (f : ε → Bool) (op : ℕ → Except ε α) :
    ℕ → ℕ → Except ε α × ℕ
  | 0, attempt =>
    match op attempt with
    | .ok v => (.ok v, attempt)
    | .error e => (.error e, attempt)
  | r + 1, attempt =>
    match op attempt with
    | .ok v => (.ok v, attempt)
    | .error e => if f e then retryRunAux f op r (attempt + 1) else (.error e, attempt)

/-- The full retry loop: attempts `0..maxRetries`. -/
def retryRun (f : ε → Bool) (maxRetries : ℕ) (op : ℕ → Except ε α) :
    Except ε α × ℕ :=
  retryRunAux f op maxRetries 0

/-- The executor's boundary behaviour: the final raw failure is classified
into a `StructuredError` and returned as a tagged result (`return { ...,
error: lastError }`), never raised. -/
def executeWithRetries (classify : ε → StructuredError) (f : ε → Bool)
    (maxRetries : ℕ) (op : ℕ → Except ε α) : Except StructuredError α × ℕ :=
  let r := retryRun f maxRetries op
  (match r.1 with
    | .ok v => .ok v
    | .error e => .error (classify e), r.2)

/-- An Auth failure as the research client sees it: HTTP 401. -/
def researchAuthError : RawError := ⟨some 401, "Unauthorized"⟩

/-- An Auth failure as the LLM extractor sees it: HTTP 401. -/
def llmAuthError : LLMRawError := ⟨some 401, none, none, none, "Unauthorized"⟩

/-! ## Theorems -/

/-- C7: for every attempt `a` and every random draw `u ∈ [0,1)`, both backoff
functions return `min(base·2^a + jitter, cap)` with `0 ≤ jitter < 0.3·base·2^a`,
the returned delay never exceeds the configured cap, and the pre-jitter delay
`base·2^a` is strictly increasing in the attempt number (research client:
base 5000 ms, cap 60000 ms; LLM extraction: base 2000 ms, cap 30000 ms). -/
theorem calculateBackoff_spec (a : ℕ) (u : ℚ) (h0 : 0 ≤ u) (h1 : u < 1) :
    (∃ j, 0 ≤ j ∧ j < (3 / 10) * researchPreJitterDelay a ∧
      calculateBackoff u a = min (researchPreJitterDelay a + j) RESEARCH_RETRY_CONFIG_maxDelayMs) ∧
    calculateBackoff u a ≤ RESEARCH_RETRY_CONFIG_maxDelayMs ∧
    (∃ j, 0 ≤ j ∧ j < (3 / 10) * llmPreJitterDelay a ∧
      calculateLLMBackoff u a = min (llmPreJitterDelay a + j) LLM_RETRY_CONFIG_maxDelayMs) ∧
    calculateLLMBackoff u a ≤ LLM_RETRY_CONFIG_maxDelayMs ∧
    StrictMono researchPreJitterDelay ∧ StrictMono llmPreJitterDelay := by
  have hrpos : (0 : ℚ) < researchPreJitterDelay a := by
    unfold researchPreJitterDelay RESEARCH_RETRY_CONFIG_baseDelayMs
    positivity
  have hlpos : (0 : ℚ) < llmPreJitterDelay a := by
    unfold llmPreJitterDelay LLM_RETRY_CONFIG_baseDelayMs
    positivity
  refine ⟨⟨u * (3 / 10) * researchPreJitterDelay a, ?_, ?_, rfl⟩, min_le_right _ _,
    ⟨u * (3 / 10) * llmPreJitterDelay a, ?_, ?_, rfl⟩, min_le_right _ _, ?_, ?_⟩
  · positivity
  · calc u * (3 / 10) * researchPreJitterDelay a
        = u * ((3 / 10) * researchPreJitterDelay a) := by ring
      _ < (3 / 10) * researchPreJitterDelay a := by
          have : (0 : ℚ) < (3 / 10) * researchPreJitterDelay a := by positivity
          exact mul_lt_of_lt_one_left this h1
  · positivity
  · calc u * (3 / 10) * llmPreJitterDelay a
        = u * ((3 / 10) * llmPreJitterDelay a) := by ring
      _ < (3 / 10) * llmPreJitterDelay a := by
          have : (0 : ℚ) < (3 / 10) * llmPreJitterDelay a := by positivity
          exact mul_lt_of_lt_one_left this h1
  · refine strictMono_nat_of_lt_succ fun n => ?_
    unfold researchPreJitterDelay RESEARCH_RETRY_CONFIG_baseDelayMs
    have h2 : (0 : ℚ) < 2 ^ n := by positivity
    rw [pow_succ]
    nlinarith
  · refine strictMono_nat_of_lt_succ fun n => ?_
    unfold llmPreJitterDelay LLM_RETRY_CONFIG_baseDelayMs
    have h2 : (0 : ℚ) < 2 ^ n := by positivity
    rw [pow_succ]
    nlinarith

/-- Witness for `calculateBackoff_spec` at `a = 0`, `u = 0`. -/
theorem calculateBackoff_spec_witness :
    (0 : ℚ) ≤ 0 ∧ (0 : ℚ) < 1 ∧
    ((∃ j, 0 ≤ j ∧ j < (3 / 10) * researchPreJitterDelay 0 ∧
      calculateBackoff 0 0 = min (researchPreJitterDelay 0 + j) RESEARCH_RETRY_CONFIG_maxDelayMs) ∧
    calculateBackoff 0 0 ≤ RESEARCH_RETRY_CONFIG_maxDelayMs ∧
    (∃ j, 0 ≤ j ∧ j < (3 / 10) * llmPreJitterDelay 0 ∧
      calculateLLMBackoff 0 0 = min (llmPreJitterDelay 0 + j) LLM_RETRY_CONFIG_maxDelayMs) ∧
    calculateLLMBackoff 0 0 ≤ LLM_RETRY_CONFIG_maxDelayMs ∧
    StrictMono researchPreJitterDelay ∧ StrictMono llmPreJitterDelay) :=
  ⟨le_refl 0, by norm_num, calculateBackoff_spec 0 0 (le_refl 0) (by norm_num)⟩

/-- C5: the capped comment-budget allocator.  With `T = 1000`, `n = 2`,
`cap = 200` every unit is allocated exactly 200 and the leftover 600 is
forfeited (total allocated 400); with `T = 1000`, `n = 10`, `cap = 200`
every unit is allocated 100 (total 1000); and for every unit count no unit
exceeds the cap and the sum of the final per-unit allocations never exceeds
the total budget (non-negativity is automatic in `ℕ`). -/
theorem calculateCommentAllocation_spec :
    (calculateCommentAllocation 2).finalAllocations = List.replicate 2 200 ∧
    ((calculateCommentAllocation 2).finalAllocations).sum = 400 ∧
    (calculateCommentAllocation 10).finalAllocations = List.replicate 10 100 ∧
    ((calculateCommentAllocation 10).finalAllocations).sum = 1000 ∧
    (∀ n, ∀ x ∈ (calculateCommentAllocation n).finalAllocations,
      x ≤ REDDIT_MAX_COMMENTS_PER_POST) ∧
    (∀ n, ((calculateCommentAllocation n).finalAllocations).sum ≤ REDDIT_MAX_COMMENT_BUDGET) ∧
    (∀ n, 0 ≤ ((calculateCommentAllocation n).finalAllocations).sum) := by
  refine ⟨by decide, by decide, by decide, by decide, ?_, ?_, fun n => Nat.zero_le _⟩
  · intro n x hx
    have := List.eq_of_mem_replicate hx
    subst this
    exact min_le_right _ _
  · intro n
    unfold calculateCommentAllocation
    simp only [List.sum_replicate, smul_eq_mul]
    calc (max n 1) * min (REDDIT_MAX_COMMENT_BUDGET / max n 1) REDDIT_MAX_COMMENTS_PER_POST
        ≤ (max n 1) * (REDDIT_MAX_COMMENT_BUDGET / max n 1) :=
          Nat.mul_le_mul_left _ (min_le_left _ _)
      _ ≤ REDDIT_MAX_COMMENT_BUDGET := by
          rw [Nat.mul_comm]
          exact Nat.div_mul_le_self _ _

theorem poolInv_init (items : List τ) (out : τ → ℕ → σ) (concurrency : ℕ) :
    PoolInv items out (poolInit (σ := σ) items concurrency) := by
  refine ⟨by simp [poolInit], fun i hi => absurd hi (by simp [poolInit])⟩

theorem poolInv_step {items : List τ} {out : τ → ℕ → σ} {s s' : PoolState σ}
    (hstep : PoolStep items out s s') (hinv : PoolInv items out s) :
    PoolInv items out s' := by
  cases hstep with
  | claim w hw hn =>
    refine ⟨hinv.results_len, fun i hi => ?_⟩
    rcases Nat.lt_succ_iff_lt_or_eq.mp hi with hi' | hi'
    · rcases hinv.claimed i hi' with ⟨w', hw'⟩ | hdone
      · left
        have hne : w ≠ w' := by
          rintro rfl
          rw [hw] at hw'
          exact Option.noConfusion (Option.some.inj hw')
        exact ⟨w', by rw [List.getElem?_set_ne hne]; exact hw'⟩
      · exact Or.inr hdone
    · subst hi'
      left
      have hwlt : w < s.workers.length := by
        by_contra hge
        rw [List.getElem?_eq_none (Nat.le_of_not_lt hge)] at hw
        exact Option.noConfusion hw
      exact ⟨w, by rw [List.getElem?_set_self hwlt]⟩
  | complete w i x hw hx =>
    have hilen : i < items.length := by
      rcases List.getElem?_eq_some_iff.mp hx with ⟨h, _⟩
      exact h
    refine ⟨by simp [hinv.results_len], fun j hj => ?_⟩
    by_cases hji : j = i
    · subst hji
      right
      refine ⟨x, hx, ?_⟩
      rw [List.getElem?_set_self (by rw [hinv.results_len]; exact hilen)]
    · rcases hinv.claimed j hj with ⟨w', hw'⟩ | ⟨y, hy, hres⟩
      · left
        have hne : w ≠ w' := by
          rintro rfl
          rw [hw] at hw'
          exact hji (Option.some.inj (Option.some.inj hw')).symm
        exact ⟨w', by rw [List.getElem?_set_ne hne]; exact hw'⟩
      · right
        refine ⟨y, hy, ?_⟩
        rw [List.getElem?_set_ne (fun h => hji h.symm)]
        exact hres

theorem poolInv_reach {items : List τ} {out : τ → ℕ → σ} {concurrency : ℕ}
    {s : PoolState σ} (h : PoolReach items out concurrency s) :
    PoolInv items out s := by
  induction h with
  | refl => exact poolInv_init items out concurrency
  | tail _ hstep ih => exact poolInv_step hstep ih

/-- In any reachable terminal state, the results array has one cell per input
item and cell `i` holds `out` of item `i`. -/
theorem pool_terminal_results {items : List τ} {out : τ → ℕ → σ} {concurrency : ℕ}
    {s : PoolState σ} (hreach : PoolReach items out concurrency s)
    (hterm : PoolTerminal items s) :
    s.results.length = items.length ∧
    ∀ i x, items[i]? = some x → s.results[i]? = some (some (out x i)) := by
  have hinv := poolInv_reach hreach
  refine ⟨hinv.results_len, fun i x hx => ?_⟩
  have hilen : i < items.length := by
    rcases List.getElem?_eq_some_iff.mp hx with ⟨h, _⟩
    exact h
  have hi : i < s.next := hterm.1 ▸ hilen
  rcases hinv.claimed i hi with ⟨w, hw⟩ | ⟨y, hy, hres⟩
  · exfalso
    have hmem : (some i : Option ℕ) ∈ s.workers := List.getElem?_mem hw
    exact Option.noConfusion (hterm.2 _ hmem)
  · rw [hy] at hx
    rw [hres, Option.some.inj hx]

/-- C1: for every input array of `N` items, every mapper, and every concurrency
limit `C` with `1 ≤ C ≤ N`, any terminal state the `pMap` scheduler can reach
has a results array of length `N` whose `i`-th cell holds the mapper's result
for the `i`-th input item — output order matches input (submission) order
regardless of the order in which individual tasks complete. -/
theorem pMap_order_spec (items : List τ) (mapper : τ → ℕ → ρ) (concurrency : ℕ)
    (hc1 : 1 ≤ concurrency) (hc2 : concurrency ≤ items.length)
    (s : PoolState ρ)
    (hreach : PoolReach items mapper concurrency s)
    (hterm : PoolTerminal items s) :
    s.results.length = items.length ∧
    ∀ i x, items[i]? = some x → s.results[i]? = some (some (mapper x i)) :=
  pool_terminal_results hreach hterm

/-- Witness for `pMap_order_spec`: items `[10, 20]`, mapper `x + i`, `C = 2`,
on the execution that claims both items and completes them in reverse order. -/
theorem pMap_order_spec_witness :
    (1 ≤ 2 ∧ 2 ≤ ([10, 20] : List ℕ).length ∧
      PoolReach [10, 20] (fun x i => x + i) 2
        (⟨2, [none, none], [some 10, some 21]⟩ : PoolState ℕ) ∧
      PoolTerminal [10, 20] (⟨2, [none, none], [some 10, some 21]⟩ : PoolState ℕ)) ∧
    ((⟨2, [none, none], [some 10, some 21]⟩ : PoolState ℕ).results.length =
        ([10, 20] : List ℕ).length ∧
      ∀ (i x : ℕ), ([10, 20] : List ℕ)[i]? = some x →
        (⟨2, [none, none], [some 10, some 21]⟩ : PoolState ℕ).results[i]? =
          some (some (x + i))) := by
  have hreach : PoolReach [10, 20] (fun x i => x + i) 2
      (⟨2, [none, none], [some 10, some 21]⟩ : PoolState ℕ) := by
    refine Relation.ReflTransGen.head (PoolStep.claim _ 0 (by decide) (by decide)) ?_
    refine Relation.ReflTransGen.head (PoolStep.claim _ 1 (by decide) (by decide)) ?_
    refine Relation.ReflTransGen.head (PoolStep.complete _ 1 1 20 (by decide) (by decide)) ?_
    exact Relation.ReflTransGen.head (PoolStep.complete _ 0 0 10 (by decide) (by decide))
      Relation.ReflTransGen.refl
  have hterm : PoolTerminal [10, 20] (⟨2, [none, none], [some 10, some 21]⟩ : PoolState ℕ) :=
    ⟨rfl, by decide⟩
  exact ⟨⟨by norm_num, by norm_num, hreach, hterm⟩,
    pMap_order_spec [10, 20] (fun x i => x + i) 2 (by norm_num) (by norm_num) _ hreach hterm⟩

/-- C9: for every input array, mapper, and concurrency limit, any terminal
state the `pMapSettled` scheduler can reach holds one settled marker per item,
aligned to input order: `fulfilled` with the value where the mapper succeeded,
`rejected` with the reason where it failed.  A failing item cannot abort the
batch (there is no failure transition) and does not disturb any other item's
cell. -/
theorem pMapSettled_spec (items : List τ) (mapper : τ → ℕ → Except ε ρ)
    (concurrency : ℕ) (s : PoolState (SettledResult ρ ε))
    (hreach : PoolReach items (fun x i => settleOutcome (mapper x i)) concurrency s)
    (hterm : PoolTerminal items s) :
    s.results.length = items.length ∧
    ∀ i x, items[i]? = some x →
      s.results[i]? = some (some (settleOutcome (mapper x i))) :=
  pool_terminal_results hreach hterm

/-- Witness for `pMapSettled_spec`: two items where the first one's mapper
rejects; the batch still settles both, in input order. -/
theorem pMapSettled_spec_witness :
    (PoolReach ["a", "b"]
        (fun x i => settleOutcome (if i = 0 then Except.error "boom" else Except.ok x)) 1
        (⟨2, [none], [some (.rejected "boom"), some (.fulfilled "b")]⟩ :
          PoolState (SettledResult String String)) ∧
      PoolTerminal ["a", "b"]
        (⟨2, [none], [some (.rejected "boom"), some (.fulfilled "b")]⟩ :
          PoolState (SettledResult String String))) ∧
    ((⟨2, [none], [some (.rejected "boom"), some (.fulfilled "b")]⟩ :
        PoolState (SettledResult String String)).results.length =
      (["a", "b"] : List String).length ∧
      ∀ (i : ℕ) (x : String), (["a", "b"] : List String)[i]? = some x →
        (⟨2, [none], [some (.rejected "boom"), some (.fulfilled "b")]⟩ :
          PoolState (SettledResult String String)).results[i]? =
          some (some (settleOutcome (if i = 0 then Except.error "boom" else Except.ok x)))) := by
  have hreach : PoolReach ["a", "b"]
      (fun x i => settleOutcome (if i = 0 then Except.error "boom" else Except.ok x)) 1
      (⟨2, [none], [some (.rejected "boom"), some (.fulfilled "b")]⟩ :
        PoolState (SettledResult String String)) := by
    refine Relation.ReflTransGen.head (PoolStep.claim _ 0 (by decide) (by decide)) ?_
    refine Relation.ReflTransGen.head (PoolStep.complete _ 0 0 "a" (by decide) (by decide)) ?_
    refine Relation.ReflTransGen.head (PoolStep.claim _ 0 (by decide) (by decide)) ?_
    exact Relation.ReflTransGen.head (PoolStep.complete _ 0 1 "b" (by decide) (by decide))
      Relation.ReflTransGen.refl
  have hterm : PoolTerminal ["a", "b"]
      (⟨2, [none], [some (.rejected "boom"), some (.fulfilled "b")]⟩ :
        PoolState (SettledResult String String)) :=
    ⟨rfl, by decide⟩
  exact ⟨⟨hreach, hterm⟩,
    pMapSettled_spec ["a", "b"]
      (fun x i => if i = 0 then Except.error "boom" else Except.ok x) 1 _ hreach hterm⟩

/-! ## Theorems about score normalization (C3) and threshold selection (C2) -/

theorem exists_mem_of_mem_calculateWeightedScores {urls : List AggregatedUrl}
    {r : RankedUrl} (h : r ∈ calculateWeightedScores urls) :
    ∃ u ∈ urls, r.frequency = u.frequency := by
  unfold calculateWeightedScores at h
  split at h
  · exact absurd h (List.not_mem_nil r)
  · obtain ⟨i, hi, hf⟩ := List.exists_of_mem_mapIdx h
    refine ⟨(urls.mergeSort (fun a b => decide (b.totalScore ≤ a.totalScore)))[i], ?_, ?_⟩
    · exact List.mem_mergeSort.mp (List.getElem_mem hi)
    · rw [← hf]

theorem exists_mem_of_mem_calculateRedditWeightedScores
    {urls : List AggregatedRedditUrl} {r : RankedRedditUrl}
    (h : r ∈ calculateRedditWeightedScores urls) :
    ∃ u ∈ urls, r.frequency = u.frequency := by
  unfold calculateRedditWeightedScores at h
  split at h
  · exact absurd h (List.not_mem_nil r)
  · obtain ⟨i, hi, hf⟩ := List.exists_of_mem_mapIdx h
    refine ⟨(urls.mergeSort (fun a b => decide (b.totalScore ≤ a.totalScore)))[i], ?_, ?_⟩
    · exact List.mem_mergeSort.mp (List.getElem_mem hi)
    · rw [← hf]

theorem filterByFrequency_all_le (m : List (String × AggregatedUrl)) (t : ℕ) :
    (calculateWeightedScores (filterByFrequency m t)).all
      (fun r => decide (t ≤ r.frequency)) = true := by
  rw [List.all_eq_true]
  intro r hr
  obtain ⟨u, hu, hf⟩ := exists_mem_of_mem_calculateWeightedScores hr
  rw [decide_eq_true_eq, hf]
  exact decide_eq_true_eq.mp (List.mem_filter.mp hu).2

theorem filterRedditByFrequency_all_le (m : List (String × AggregatedRedditUrl)) (t : ℕ) :
    (calculateRedditWeightedScores (filterRedditByFrequency m t)).all
      (fun r => decide (t ≤ r.frequency)) = true := by
  rw [List.all_eq_true]
  intro r hr
  obtain ⟨u, hu, hf⟩ := exists_mem_of_mem_calculateRedditWeightedScores hr
  rw [decide_eq_true_eq, hf]
  exact decide_eq_true_eq.mp (List.mem_filter.mp hu).2

theorem aggregateAndRankLoop_eq (m : List (String × AggregatedUrl)) (c : ℕ)
    (prev : List RankedUrl) :
    aggregateAndRankLoop m c [3, 2, 1] prev =
      if c ≤ (calculateWeightedScores (filterByFrequency m 3)).length then
        (calculateWeightedScores (filterByFrequency m 3), 3, none)
      else if c ≤ (calculateWeightedScores (filterByFrequency m 2)).length then
        (calculateWeightedScores (filterByFrequency m 2), 2, some (thresholdNoteWeb 2))
      else
        (calculateWeightedScores (filterByFrequency m 1), 1, some (thresholdNoteWeb 1)) := by
  simp only [aggregateAndRankLoop]
  by_cases h3 : c ≤ (calculateWeightedScores (filterByFrequency m 3)).length
  · simp [h3]
  · by_cases h2 : c ≤ (calculateWeightedScores (filterByFrequency m 2)).length
    · simp [h3, h2]
    · simp [h3, h2]

theorem aggregateAndRankRedditLoop_eq (m : List (String × AggregatedRedditUrl))
    (c tq : ℕ) (prev : List RankedRedditUrl) :
    aggregateAndRankRedditLoop m c tq [2, 1] prev =
      if c ≤ (calculateRedditWeightedScores (filterRedditByFrequency m 2)).length then
        (calculateRedditWeightedScores (filterRedditByFrequency m 2), 2, none)
      else
        (calculateRedditWeightedScores (filterRedditByFrequency m 1), 1,
          if 1 < tq then some (thresholdNoteReddit 1) else none) := by
  simp only [aggregateAndRankRedditLoop]
  by_cases h2 : c ≤ (calculateRedditWeightedScores (filterRedditByFrequency m 2)).length
  · simp [h2]
  · simp [h2]

/-- C2 (amended): both aggregators try their minimum-frequency thresholds in
descending order (3, 2, 1 for web search; 2, 1 for Reddit) and use the first
threshold whose qualifying-item count reaches `minConsensusUrls`, or 1 if none
does; every item of the returned ranked list has frequency **at least** (not
exactly) the reported threshold; and the advisory note is attached exactly
when the used threshold is below the domain default — except that the Reddit
aggregator additionally requires more than one query for the note. -/
theorem aggregateAndRank_threshold_spec (searches : List KeywordSearchResult)
    (minConsensusUrls : ℕ) (rsearches : List (String × List RedditSearchResult))
    (rminConsensusUrls : ℕ) :
    ((aggregateAndRank searches minConsensusUrls).frequencyThreshold =
      if minConsensusUrls ≤
          (calculateWeightedScores (filterByFrequency (aggregateResults searches) 3)).length
        then 3
      else if minConsensusUrls ≤
          (calculateWeightedScores (filterByFrequency (aggregateResults searches) 2)).length
        then 2
      else 1) ∧
    ((aggregateAndRank searches minConsensusUrls).rankedUrls =
      calculateWeightedScores (filterByFrequency (aggregateResults searches)
        (aggregateAndRank searches minConsensusUrls).frequencyThreshold)) ∧
    ((aggregateAndRank searches minConsensusUrls).rankedUrls.all
      (fun r =>
        decide ((aggregateAndRank searches minConsensusUrls).frequencyThreshold ≤
          r.frequency)) = true) ∧
    ((aggregateAndRank searches minConsensusUrls).thresholdNote.isSome ↔
      (aggregateAndRank searches minConsensusUrls).frequencyThreshold < 3) ∧
    ((aggregateAndRankReddit rsearches rminConsensusUrls).frequencyThreshold =
      if rminConsensusUrls ≤
          (calculateRedditWeightedScores
            (filterRedditByFrequency (aggregateRedditResults rsearches) 2)).length
        then 2
      else 1) ∧
    ((aggregateAndRankReddit rsearches rminConsensusUrls).rankedUrls =
      calculateRedditWeightedScores (filterRedditByFrequency (aggregateRedditResults rsearches)
        (aggregateAndRankReddit rsearches rminConsensusUrls).frequencyThreshold)) ∧
    ((aggregateAndRankReddit rsearches rminConsensusUrls).rankedUrls.all
      (fun r =>
        decide ((aggregateAndRankReddit rsearches rminConsensusUrls).frequencyThreshold ≤
          r.frequency)) = true) ∧
    ((aggregateAndRankReddit rsearches rminConsensusUrls).thresholdNote.isSome ↔
      (aggregateAndRankReddit rsearches rminConsensusUrls).frequencyThreshold < 2 ∧
        1 < rsearches.length) := by
  simp only [aggregateAndRank, aggregateAndRankReddit]
  simp only [aggregateAndRankLoop_eq, aggregateAndRankRedditLoop_eq]
  by_cases h3 : minConsensusUrls ≤
      (calculateWeightedScores (filterByFrequency (aggregateResults searches) 3)).length
  · simp only [if_pos h3]
    by_cases hr2 : rminConsensusUrls ≤
        (calculateRedditWeightedScores
          (filterRedditByFrequency (aggregateRedditResults rsearches) 2)).length
    · simp [hr2, filterByFrequency_all_le, filterRedditByFrequency_all_le]
    · by_cases htq : 1 < rsearches.length
      · simp [hr2, htq, filterByFrequency_all_le, filterRedditByFrequency_all_le]
      · simp [hr2, htq, filterByFrequency_all_le, filterRedditByFrequency_all_le]
  · by_cases h2 : minConsensusUrls ≤
        (calculateWeightedScores (filterByFrequency (aggregateResults searches) 2)).length
    all_goals
      by_cases hr2 : rminConsensusUrls ≤
          (calculateRedditWeightedScores
            (filterRedditByFrequency (aggregateRedditResults rsearches) 2)).length
    all_goals
      by_cases htq : 1 < rsearches.length
    all_goals
      simp [h3, h2, hr2, htq, filterByFrequency_all_le, filterRedditByFrequency_all_le]

/-- C2 (counterexample): one Reddit query returning the same post at
positions 1 and 2.  The merged item has frequency 2; with the default
`minConsensusUrls = 3` the loop falls through to threshold 1, so the ranked
list's minimum frequency (2) is **not** equal to the reported threshold (1),
and although the used threshold 1 is below the Reddit default 2 no advisory
note is attached (the source requires `totalQueries > 1` for the note). -/
theorem aggregateAndRankReddit_counterexample :
    (aggregateAndRankReddit
        [("q", [⟨"http://a.com/x", "T1", "S1", none⟩,
                ⟨"http://a.com/x", "T2", "S2", none⟩])] 3).frequencyThreshold = 1 ∧
    (aggregateAndRankReddit
        [("q", [⟨"http://a.com/x", "T1", "S1", none⟩,
                ⟨"http://a.com/x", "T2", "S2", none⟩])] 3).rankedUrls.map
      RankedRedditUrl.frequency = [2] ∧
    (aggregateAndRankReddit
        [("q", [⟨"http://a.com/x", "T1", "S1", none⟩,
                ⟨"http://a.com/x", "T2", "S2", none⟩])] 3).thresholdNote = none ∧
    (2 : ℕ) ≠ 1 ∧ (1 : ℕ) < 2 := by
  refine ⟨?_, ?_, ?_, by norm_num, by norm_num⟩ <;>
    simp [aggregateAndRankReddit, aggregateAndRankRedditLoop_eq,
      aggregateRedditResults, aggregateRedditStep, assocFind?, assocUpdate,
      filterRedditByFrequency, calculateRedditWeightedScores, List.enum, List.enumFrom,
      normalizeUrl, parseUrl, splitSchemeSep, stripLeadingWww, startsWithWww,
      stripOneTrailingSlash, toLowerChars]

/-- C3 (amended): score normalization returns `[]` on empty input (no division
happens); on non-empty input the returned list is non-empty, and its top-ranked
item has normalized score exactly 100 whenever some input item has a positive
cumulative score — i.e. unless the maximal cumulative score is 0 (possible
exactly when every input's `totalScore` weight sum is 0, e.g. all positions
≥ 30), in which case every returned score is 0.  One of the two outcomes
always holds. -/
theorem calculateWeightedScores_top_spec (urls : List AggregatedUrl) :
    calculateWeightedScores [] = ([] : List RankedUrl) ∧
    (urls ≠ [] →
      calculateWeightedScores urls ≠ [] ∧
      ((∃ u ∈ urls, 0 < u.totalScore) →
        (calculateWeightedScores urls).head?.map RankedUrl.score = some 100) ∧
      ((∀ u ∈ urls, u.totalScore ≤ 0) →
        ∀ r ∈ calculateWeightedScores urls, r.score = 0) ∧
      ((calculateWeightedScores urls).head?.map RankedUrl.score = some 100 ∨
        ∀ r ∈ calculateWeightedScores urls, r.score = 0)) := by
  refine ⟨rfl, fun hne => ?_⟩
  have hempty : urls.isEmpty = false := by
    simpa [List.isEmpty_iff] using hne
  have hsne : urls.mergeSort (fun a b => decide (b.totalScore ≤ a.totalScore)) ≠ [] := by
    rw [← List.length_pos_iff_ne_nil, List.length_mergeSort, List.length_pos_iff_ne_nil]
    exact hne
  obtain ⟨s0, stail, hcons⟩ := List.exists_cons_of_ne_nil hsne
  have hs0mem : s0 ∈ urls := by
    have hmem : s0 ∈ urls.mergeSort (fun a b => decide (b.totalScore ≤ a.totalScore)) := by
      rw [hcons]
      exact List.mem_cons_self s0 stail
    exact List.mem_mergeSort.mp hmem
  have hmax : ∀ u ∈ urls, u.totalScore ≤ s0.totalScore := by
    have hsorted : List.Pairwise
        (fun a b : AggregatedUrl =>
          (fun a b : AggregatedUrl => decide (b.totalScore ≤ a.totalScore)) a b = true)
        (urls.mergeSort (fun a b => decide (b.totalScore ≤ a.totalScore))) :=
      List.sorted_mergeSort
        (fun a b c hab hbc => by
          rw [decide_eq_true_eq] at hab hbc ⊢
          exact le_trans hbc hab)
        (fun a b => by
          rw [Bool.or_eq_true, decide_eq_true_eq, decide_eq_true_eq]
          exact le_total b.totalScore a.totalScore)
        urls
    rw [hcons] at hsorted
    intro u hu
    have hu' : u ∈ s0 :: stail := by
      rw [← hcons]
      exact List.mem_mergeSort.mpr hu
    rcases List.mem_cons.mp hu' with rfl | hu''
    · exact le_refl _
    · have := (List.pairwise_cons.mp hsorted).1 u hu''
      rw [decide_eq_true_eq] at this
      exact this
  have hhead : (calculateWeightedScores urls).head?.map RankedUrl.score =
      some (if 0 < s0.totalScore then s0.totalScore / s0.totalScore * 100 else 0) := by
    unfold calculateWeightedScores
    rw [hempty]
    simp only [Bool.false_eq_true, if_false]
    rw [hcons]
    simp only [List.head?_cons]
    rw [List.head?_mapIdx]
    simp only [List.head?_cons, Option.map_some']
  have hall0 : ¬0 < s0.totalScore → ∀ r ∈ calculateWeightedScores urls, r.score = 0 := by
    intro hpos r hr
    unfold calculateWeightedScores at hr
    rw [hempty] at hr
    simp only [Bool.false_eq_true, if_false] at hr
    rw [hcons] at hr
    simp only [List.head?_cons] at hr
    obtain ⟨i, hi, hf⟩ := List.exists_of_mem_mapIdx hr
    rw [← hf]
    simp [if_neg hpos]
  have htop : 0 < s0.totalScore →
      (calculateWeightedScores urls).head?.map RankedUrl.score = some 100 := by
    intro hpos
    rw [hhead, if_pos hpos, div_self (ne_of_gt hpos)]
    norm_num
  refine ⟨?_, ?_, ?_, ?_⟩
  · have hlen : (calculateWeightedScores urls).length = urls.length := by
      unfold calculateWeightedScores
      rw [hempty]
      simp
    rw [← List.length_pos_iff_ne_nil, hlen, List.length_pos_iff_ne_nil]
    exact hne
  · rintro ⟨u, hu, hupos⟩
    exact htop (lt_of_lt_of_le hupos (hmax u hu))
  · intro hall
    exact hall0 (not_lt.mpr (hall s0 hs0mem))
  · by_cases hpos : 0 < s0.totalScore
    · exact Or.inl (htop hpos)
    · exact Or.inr (hall0 hpos)

/-- Witness for `calculateWeightedScores_top_spec` on a one-item input whose
only position is 1 (CTR weight 100 > 0): the positive-score hypothesis is
discharged, so the top-ranked item's score is exactly 100. -/
theorem calculateWeightedScores_top_spec_witness :
    ([⟨"http://a.com/x", "T", "S", 1, [1], ["q"], 1, getCtrWeight 1⟩] :
        List AggregatedUrl) ≠ [] ∧
    (∃ u ∈ ([⟨"http://a.com/x", "T", "S", 1, [1], ["q"], 1, getCtrWeight 1⟩] :
        List AggregatedUrl), 0 < u.totalScore) ∧
    (calculateWeightedScores
        [⟨"http://a.com/x", "T", "S", 1, [1], ["q"], 1, getCtrWeight 1⟩]).head?.map
      RankedUrl.score = some 100 := by
  have hex : ∃ u ∈ ([⟨"http://a.com/x", "T", "S", 1, [1], ["q"], 1, getCtrWeight 1⟩] :
      List AggregatedUrl), 0 < u.totalScore :=
    ⟨⟨"http://a.com/x", "T", "S", 1, [1], ["q"], 1, getCtrWeight 1⟩, by simp,
      by norm_num [getCtrWeight, CTR_WEIGHTS]⟩
  exact ⟨by simp, hex,
    ((calculateWeightedScores_top_spec
      [⟨"http://a.com/x", "T", "S", 1, [1], ["q"], 1, getCtrWeight 1⟩]).2 (by simp)).2.1 hex⟩

/-- C3 (counterexample): a single aggregated item whose cumulative score is 0
(its only recorded position is 30, whose CTR weight is `max(0, 10 − 20·0.5) = 0`)
is a non-empty input on which the top-ranked item's normalized score is 0,
not 100. -/
theorem calculateWeightedScores_top_counterexample :
    ([⟨"http://example.com/x", "T", "S", 1, [30], ["q"], 30, getCtrWeight 30⟩] :
        List AggregatedUrl) ≠ [] ∧
    (calculateWeightedScores
        [⟨"http://example.com/x", "T", "S", 1, [30], ["q"], 30, getCtrWeight 30⟩]).map
      RankedUrl.score = [0] ∧
    (0 : ℚ) ≠ 100 := by
  refine ⟨by simp, ?_, by norm_num⟩
  simp only [calculateWeightedScores, getCtrWeight, CTR_WEIGHTS]
  norm_num

theorem assocFind?_cons (a : String × α) (m : List (String × α)) (k : String) :
    assocFind? (a :: m) k = if a.1 == k then some a.2 else assocFind? m k := by
  unfold assocFind?
  simp only [List.find?_cons]
  cases h : (a.1 == k)
  · simp
  · simp

theorem assocFind?_append (m l : List (String × α)) (k : String) :
    assocFind? (m ++ l) k =
      match assocFind? m k with
      | some v => some v
      | none => assocFind? l k := by
  induction m with
  | nil => rfl
  | cons a m ih =>
    rw [List.cons_append, assocFind?_cons, assocFind?_cons]
    by_cases h : a.1 == k
    · rw [if_pos h, if_pos h]
    · rw [if_neg h, if_neg h, ih]

theorem assocUpdate_cons (a : String × α) (m : List (String × α)) (k : String) (v : α) :
    assocUpdate (a :: m) k v =
      (if a.1 == k then (k, v) else a) :: assocUpdate m k v := by
  unfold assocUpdate
  rw [List.map_cons]

theorem assocFind?_update_self (m : List (String × α)) (k : String) (v : α)
    (h : (assocFind? m k).isSome) :
    assocFind? (assocUpdate m k v) k = some v := by
  induction m with
  | nil => simp [assocFind?] at h
  | cons a m ih =>
    rw [assocFind?_cons] at h
    rw [assocUpdate_cons]
    by_cases ha : (a.1 == k) = true
    · rw [if_pos ha, assocFind?_cons]
      simp
    · rw [if_neg ha, assocFind?_cons, if_neg ha]
      rw [if_neg ha] at h
      exact ih h

theorem assocFind?_update_ne (m : List (String × α)) (k k' : String) (v : α)
    (h : k' ≠ k) : assocFind? (assocUpdate m k v) k' = assocFind? m k' := by
  induction m with
  | nil => rfl
  | cons a m ih =>
    rw [assocUpdate_cons, assocFind?_cons, assocFind?_cons]
    by_cases ha : (a.1 == k) = true
    · have hk : (k == k') = false := by
        simpa using fun he => h he.symm
      have ha' : (a.1 == k') = false := by
        have hak := beq_iff_eq.mp ha
        rw [hak]
        exact hk
      rw [if_pos ha]
      simp only [hk, ha', Bool.false_eq_true, if_false]
      exact ih
    · rw [if_neg ha, ih]

theorem keyOccurrences_append_single (pairs : List (String × SearchResultItem))
    (kw : String) (r : SearchResultItem) (k : String) :
    keyOccurrences (pairs ++ [(kw, r)]) k =
      keyOccurrences pairs k ++ if normalizeUrl r.link = k then [r] else [] := by
  unfold keyOccurrences
  rw [List.map_append, List.filter_append]
  by_cases h : normalizeUrl r.link = k <;> simp [h]

/-- Unfolding `aggregateStep` when the key is not yet in the map. -/
theorem aggregateStep_of_none (kw : String) (r : SearchResultItem)
    (m : List (String × AggregatedUrl))
    (h : assocFind? m (normalizeUrl r.link) = none) :
    aggregateStep kw r m =
      m ++ [(normalizeUrl r.link,
        { url := r.link
          title := r.title
          snippet := r.snippet
          frequency := 1
          positions := [r.position]
          queries := [kw]
          bestPosition := r.position
          totalScore := getCtrWeight r.position })] := by
  simp only [aggregateStep]
  rw [h]

/-- Unfolding `aggregateStep` when the key is already in the map. -/
theorem aggregateStep_of_some (kw : String) (r : SearchResultItem)
    (m : List (String × AggregatedUrl)) (existing : AggregatedUrl)
    (h : assocFind? m (normalizeUrl r.link) = some existing) :
    aggregateStep kw r m =
      assocUpdate m (normalizeUrl r.link)
        { existing with
          frequency := existing.frequency + 1
          positions := existing.positions ++ [r.position]
          queries := existing.queries ++ [kw]
          bestPosition := min existing.bestPosition r.position
          totalScore := existing.totalScore + getCtrWeight r.position
          title := if r.position < existing.bestPosition then r.title else existing.title
          snippet :=
            if r.position < existing.bestPosition then r.snippet else existing.snippet } := by
  simp only [aggregateStep]
  rw [h]

theorem urlMapMatches_step (pairs : List (String × SearchResultItem))
    (m : List (String × AggregatedUrl)) (kw : String) (r : SearchResultItem)
    (h : UrlMapMatches pairs m) :
    UrlMapMatches (pairs ++ [(kw, r)]) (aggregateStep kw r m) := by
  intro k
  rw [keyOccurrences_append_single]
  by_cases hk : normalizeUrl r.link = k
  · subst hk
    rw [if_pos rfl]
    cases hfind : assocFind? m (normalizeUrl r.link) with
    | none =>
      have hocc : keyOccurrences pairs (normalizeUrl r.link) = [] := (h _).1 hfind
      rw [aggregateStep_of_none kw r m hfind]
      constructor
      · intro hnone
        rw [assocFind?_append, hfind, assocFind?_cons] at hnone
        simp at hnone
      · intro e he
        rw [assocFind?_append, hfind, assocFind?_cons] at he
        simp only [beq_self_eq_true, if_pos] at he
        obtain rfl := (Option.some.inj he).symm
        rw [hocc, List.nil_append]
        refine ⟨by simp, rfl, rfl, ?_, ⟨r, by simp, rfl, rfl, rfl⟩⟩
        intro p hp
        simp only [List.mem_singleton] at hp
        simp [hp]
    | some existing =>
      rw [aggregateStep_of_some kw r m existing hfind]
      constructor
      · intro hnone
        rw [assocFind?_update_self m _ _ (by rw [hfind]; rfl)] at hnone
        exact Option.noConfusion hnone
      · intro e he
        rw [assocFind?_update_self m _ _ (by rw [hfind]; rfl)] at he
        obtain rfl := (Option.some.inj he).symm
        obtain ⟨hne, hfreq, hpos, hbound, rold, hrold, hrpos, hrtitle, hrsnip⟩ :=
          (h _).2 existing hfind
        refine ⟨by simp, by simp [hfreq], by simp [hpos], ?_, ?_⟩
        · intro p hp
          simp only [List.mem_append, List.mem_singleton] at hp
          rcases hp with hp | hp
          · rw [hpos] at hbound
            exact le_trans (min_le_left _ _) (hbound p (hpos ▸ hp))
          · subst hp
            exact min_le_right _ _
        · by_cases hlt : r.position < existing.bestPosition
          · refine ⟨r, by simp, ?_, by simp [hlt], by simp [hlt]⟩
            simp [min_eq_right (le_of_lt hlt)]
          · refine ⟨rold, by simp [hrold], ?_, by simp [hlt, hrtitle], by simp [hlt, hrsnip]⟩
            have hle : existing.bestPosition ≤ r.position := Nat.le_of_not_lt hlt
            simp [hrpos, min_eq_left hle]
  · rw [if_neg hk, List.append_nil]
    cases hfind : assocFind? m (normalizeUrl r.link) with
    | none =>
      rw [aggregateStep_of_none kw r m hfind]
      constructor
      · intro hnone
        rw [assocFind?_append] at hnone
        cases hmk : assocFind? m k with
        | none => exact (h k).1 hmk
        | some v => rw [hmk] at hnone; exact Option.noConfusion hnone
      · intro e he
        rw [assocFind?_append] at he
        cases hmk : assocFind? m k with
        | none =>
          rw [hmk, assocFind?_cons] at he
          have hbeq : (normalizeUrl r.link == k) = false := by simpa using hk
          rw [if_neg (by simp [hbeq])] at he
          simp [assocFind?] at he
        | some v =>
          rw [hmk] at he
          obtain rfl := (Option.some.inj he).symm
          exact (h k).2 e hmk
    | some existing =>
      rw [aggregateStep_of_some kw r m existing hfind]
      constructor
      · intro hnone
        rw [assocFind?_update_ne m _ _ _ (fun he => hk he.symm)] at hnone
        exact (h k).1 hnone
      · intro e he
        rw [assocFind?_update_ne m _ _ _ (fun he => hk he.symm)] at he
        exact (h k).2 e he

theorem urlMapMatches_fold (suffix done : List (String × SearchResultItem))
    (m : List (String × AggregatedUrl)) (h : UrlMapMatches done m) :
    UrlMapMatches (done ++ suffix) (aggregatePairs suffix m) := by
  induction suffix generalizing done m with
  | nil => simpa [aggregatePairs] using h
  | cons p ps ih =>
    have step := urlMapMatches_step done m p.1 p.2 h
    have := ih (done ++ [p]) (aggregateStep p.1 p.2 m) step
    rw [List.append_assoc] at this
    simpa [aggregatePairs] using this

theorem urlMapMatches_init : UrlMapMatches [] [] := by
  intro k
  exact ⟨fun _ => rfl, fun e he => by simp [assocFind?] at he⟩

theorem aggregateResults_eq_pairs (searches : List KeywordSearchResult) :
    aggregateResults searches = aggregatePairs (searchPairs searches) [] := by
  suffices h : ∀ m, searches.foldl
      (fun urlMap search =>
        search.results.foldl
          (fun urlMap result => aggregateStep search.keyword result urlMap) urlMap) m
      = aggregatePairs (searchPairs searches) m by
    exact h []
  induction searches with
  | nil => intro m; rfl
  | cons s ss ih =>
    intro m
    rw [List.foldl_cons]
    show ss.foldl _ (s.results.foldl _ m) = _
    rw [ih]
    unfold aggregatePairs searchPairs
    rw [List.flatMap_cons, List.foldl_append, List.foldl_map]

/-- C4: in every aggregation, each merged entry's `bestPosition` is a lower
bound of its `positions` and the stored title/snippet come from an occurrence
whose position equals `bestPosition` (the minimum seen so far, re-established
whenever a strictly lower position arrives later).  Concretely: a URL seen at
positions [1, 1, 5] with the 5 last merges to frequency 3, bestPosition 1 and
the position-1 title/snippet "T1"/"S1", not the position-5 ones; and a URL
seen at position 5 and then at position 1 takes the later, better-ranked
occurrence's title/snippet, not the first-seen one. -/
theorem aggregateResults_best_metadata_spec :
    (∀ (searches : List KeywordSearchResult) (k : String) (e : AggregatedUrl),
      assocFind? (aggregateResults searches) k = some e →
      AggEntrySpec e (keyOccurrences (searchPairs searches) k)) ∧
    ((assocFind? (aggregateResults exampleSearches115) "example.com/a").map
        AggregatedUrl.frequency = some 3 ∧
      (assocFind? (aggregateResults exampleSearches115) "example.com/a").map
        AggregatedUrl.bestPosition = some 1 ∧
      (assocFind? (aggregateResults exampleSearches115) "example.com/a").map
        AggregatedUrl.positions = some [1, 1, 5] ∧
      (assocFind? (aggregateResults exampleSearches115) "example.com/a").map
        AggregatedUrl.title = some "T1" ∧
      (assocFind? (aggregateResults exampleSearches115) "example.com/a").map
        AggregatedUrl.snippet = some "S1") ∧
    ((assocFind? (aggregateResults exampleSearchesOverride) "example.com/a").map
        AggregatedUrl.title = some "Tbetter1" ∧
      (assocFind? (aggregateResults exampleSearchesOverride) "example.com/a").map
        AggregatedUrl.snippet = some "Sbetter1" ∧
      (assocFind? (aggregateResults exampleSearchesOverride) "example.com/a").map
        AggregatedUrl.bestPosition = some 1) := by
  refine ⟨?_, ⟨by decide, by decide, by decide, by decide, by decide⟩,
    by decide, by decide, by decide⟩
  intro searches k e he
  rw [aggregateResults_eq_pairs] at he
  have h := urlMapMatches_fold (searchPairs searches) [] [] urlMapMatches_init
  rw [List.nil_append] at h
  exact (h k).2 e he

/-- Witness for `aggregateResults_best_metadata_spec` on a one-result batch. -/
theorem aggregateResults_best_metadata_spec_witness :
    assocFind? (aggregateResults [⟨"q", [⟨"http://a.com/x", "T", "S", 1⟩]⟩]) "a.com/x" =
      some ⟨"http://a.com/x", "T", "S", 1, [1], ["q"], 1, getCtrWeight 1⟩ ∧
    AggEntrySpec ⟨"http://a.com/x", "T", "S", 1, [1], ["q"], 1, getCtrWeight 1⟩
      (keyOccurrences (searchPairs [⟨"q", [⟨"http://a.com/x", "T", "S", 1⟩]⟩]) "a.com/x") :=
  ⟨rfl,
    aggregateResults_best_metadata_spec.1 [⟨"q", [⟨"http://a.com/x", "T", "S", 1⟩]⟩]
      "a.com/x" ⟨"http://a.com/x", "T", "S", 1, [1], ["q"], 1, getCtrWeight 1⟩ rfl⟩

/-! ## URL normalization and merging (C6, C10) -/

theorem charToLower_eq_slash_iff (c : Char) : Char.toLower c = '/' ↔ c = '/' := by
  constructor
  · intro h
    unfold Char.toLower at h
    by_cases hcond : c.toNat ≥ 65 ∧ c.toNat ≤ 90
    · rw [if_pos hcond] at h
      exfalso
      obtain ⟨h1, h2⟩ := hcond
      set n := Char.toNat c with hn
      have h47 : (Char.ofNat (n + 32)).toNat = 47 := by rw [h]; rfl
      interval_cases n <;> exact absurd h47 (by decide)
    · rw [if_neg hcond] at h
      exact h
  · rintro rfl
    rfl

theorem getLast?_toLowerChars_eq_slash_iff (l : List Char) :
    (toLowerChars l).getLast? = some '/' ↔ l.getLast? = some '/' := by
  unfold toLowerChars
  rw [List.getLast?_map]
  cases h : l.getLast? with
  | none => simp
  | some c =>
    simp only [Option.map_some', Option.some.injEq]
    rw [charToLower_eq_slash_iff]

theorem stripOneTrailingSlash_toLowerChars (l : List Char) :
    stripOneTrailingSlash (toLowerChars l) = toLowerChars (stripOneTrailingSlash l) := by
  unfold stripOneTrailingSlash
  by_cases h : l.getLast? = some '/'
  · rw [if_pos ((getLast?_toLowerChars_eq_slash_iff l).mpr h), if_pos h]
    unfold toLowerChars
    rw [List.map_dropLast]
  · rw [if_neg (fun hc => h ((getLast?_toLowerChars_eq_slash_iff l).mp hc)), if_neg h]

theorem stripOneTrailingSlash_concat_slash (l : List Char) :
    stripOneTrailingSlash (l ++ ['/']) = l := by
  unfold stripOneTrailingSlash
  rw [if_pos (List.getLast?_concat l), List.dropLast_concat]

theorem stripOneTrailingSlash_of_no_slash (l : List Char) (h : l.getLast? ≠ some '/') :
    stripOneTrailingSlash l = l := by
  unfold stripOneTrailingSlash
  rw [if_neg h]

/-- C6 (counterexample): `http://www.www.com/x` and `http://www.com/x` differ
only by one leading `www.` in the host (paths and queries identical), yet
`normalizeUrl` strips a single `www.` from each — `/^www\./` replaces one
occurrence — leaving the distinct keys `www.com/x` and `com/x`, so the
aggregation keeps two separate entries instead of merging them. -/
theorem normalizeUrl_www_counterexample :
    parseUrl "http://www.www.com/x" = some ⟨"www.www.com", "/x", ""⟩ ∧
    parseUrl "http://www.com/x" = some ⟨"www.com", "/x", ""⟩ ∧
    ("www.www.com" : String).data = 'w' :: 'w' :: 'w' :: '.' :: ("www.com" : String).data ∧
    normalizeUrl "http://www.www.com/x" ≠ normalizeUrl "http://www.com/x" ∧
    (aggregateResults
        [⟨"q1", [⟨"http://www.www.com/x", "T1", "S1", 1⟩]⟩,
         ⟨"q2", [⟨"http://www.com/x", "T2", "S2", 1⟩]⟩]).length = 2 := by
  refine ⟨by decide, by decide, by decide, by decide, by decide⟩

/-- C6 (amended): identifiers merge whenever they differ only by letter case,
by one leading `www.` **provided the shorter host does not itself start with
`www.`**, or by one trailing path slash **provided the shorter path does not
itself already end in a slash**; unparseable identifiers merge when they
differ only by case, or by one trailing slash not preceded by another slash.
Whenever two identifiers share a normalized key the aggregation merges them
into a single AggregatedItem of frequency 2. -/
theorem normalizeUrl_merge_spec :
    (∀ (u₁ u₂ : String) (p₁ p₂ : ParsedUrl), parseUrl u₁ = some p₁ →
      parseUrl u₂ = some p₂ → p₁.hostname = p₂.hostname →
      toLowerChars p₁.pathname.data = toLowerChars p₂.pathname.data →
      toLowerChars p₁.search.data = toLowerChars p₂.search.data →
      normalizeUrl u₁ = normalizeUrl u₂) ∧
    (∀ (u₁ u₂ : String) (p₁ p₂ : ParsedUrl), parseUrl u₁ = some p₁ →
      parseUrl u₂ = some p₂ →
      p₂.hostname.data = 'w' :: 'w' :: 'w' :: '.' :: p₁.hostname.data →
      startsWithWww p₁.hostname.data = false →
      p₁.pathname = p₂.pathname → p₁.search = p₂.search →
      normalizeUrl u₁ = normalizeUrl u₂) ∧
    (∀ (u₁ u₂ : String) (p₁ p₂ : ParsedUrl), parseUrl u₁ = some p₁ →
      parseUrl u₂ = some p₂ → p₁.hostname = p₂.hostname →
      p₂.pathname.data = p₁.pathname.data ++ ['/'] →
      p₁.pathname.data.getLast? ≠ some '/' →
      p₁.search = p₂.search →
      normalizeUrl u₁ = normalizeUrl u₂) ∧
    (∀ u₁ u₂ : String, parseUrl u₁ = none → parseUrl u₂ = none →
      toLowerChars u₁.data = toLowerChars u₂.data →
      normalizeUrl u₁ = normalizeUrl u₂) ∧
    (∀ u₁ u₂ : String, parseUrl u₁ = none → parseUrl u₂ = none →
      u₂.data = u₁.data ++ ['/'] → u₁.data.getLast? ≠ some '/' →
      normalizeUrl u₁ = normalizeUrl u₂) ∧
    (∀ (qa qb a b ta tb sa sb : String) (pa pb : ℕ),
      normalizeUrl a = normalizeUrl b →
      (aggregateResults [⟨qa, [⟨a, ta, sa, pa⟩]⟩, ⟨qb, [⟨b, tb, sb, pb⟩]⟩]).length = 1 ∧
      (assocFind? (aggregateResults [⟨qa, [⟨a, ta, sa, pa⟩]⟩, ⟨qb, [⟨b, tb, sb, pb⟩]⟩])
        (normalizeUrl a)).map AggregatedUrl.frequency = some 2) := by
  refine ⟨?_, ?_, ?_, ?_, ?_, ?_⟩
  · intro u₁ u₂ p₁ p₂ h1 h2 hhost hpath hsearch
    unfold normalizeUrl
    rw [h1, h2]
    show String.mk (toLowerChars (_ ++ _ ++ _)) = String.mk (toLowerChars (_ ++ _ ++ _))
    unfold toLowerChars
    simp only [List.map_append]
    rw [hhost]
    have hstrip : toLowerChars (stripOneTrailingSlash p₁.pathname.data) =
        toLowerChars (stripOneTrailingSlash p₂.pathname.data) := by
      rw [← stripOneTrailingSlash_toLowerChars, ← stripOneTrailingSlash_toLowerChars, hpath]
    have hemptyiff : stripOneTrailingSlash p₁.pathname.data = [] ↔
        stripOneTrailingSlash p₂.pathname.data = [] := by
      constructor
      · intro h
        have := hstrip
        rw [h] at this
        unfold toLowerChars at this
        simpa using this.symm
      · intro h
        have := hstrip
        rw [h] at this
        unfold toLowerChars at this
        simpa using this
    by_cases hemp : stripOneTrailingSlash p₁.pathname.data = []
    · rw [if_pos hemp, if_pos (hemptyiff.mp hemp)]
      exact congrArg _ (congrArg _ hsearch)
    · rw [if_neg hemp, if_neg (fun hc => hemp (hemptyiff.mpr hc))]
      unfold toLowerChars at hstrip hsearch
      rw [hstrip, hsearch]
  · intro u₁ u₂ p₁ p₂ h1 h2 hhost hnww hpath hsearch
    unfold normalizeUrl
    rw [h1, h2]
    show String.mk (toLowerChars (_ ++ _ ++ _)) = String.mk (toLowerChars (_ ++ _ ++ _))
    have hs2 : stripLeadingWww p₂.hostname.data = p₁.hostname.data := by
      rw [hhost]
      rfl
    have hs1 : stripLeadingWww p₁.hostname.data = p₁.hostname.data := by
      unfold stripLeadingWww
      rw [hnww]
      simp
    rw [hs1, hs2, hpath, hsearch]
  · intro u₁ u₂ p₁ p₂ h1 h2 hhost hpath hlast hsearch
    unfold normalizeUrl
    rw [h1, h2]
    show String.mk (toLowerChars (_ ++ _ ++ _)) = String.mk (toLowerChars (_ ++ _ ++ _))
    rw [hhost, hsearch, hpath, stripOneTrailingSlash_concat_slash,
      stripOneTrailingSlash_of_no_slash _ hlast]
  · intro u₁ u₂ h1 h2 hlow
    unfold normalizeUrl
    rw [h1, h2]
    show String.mk (stripOneTrailingSlash (toLowerChars _)) =
      String.mk (stripOneTrailingSlash (toLowerChars _))
    rw [hlow]
  · intro u₁ u₂ h1 h2 happ hlast
    unfold normalizeUrl
    rw [h1, h2]
    show String.mk (stripOneTrailingSlash (toLowerChars _)) =
      String.mk (stripOneTrailingSlash (toLowerChars _))
    rw [happ]
    unfold toLowerChars
    rw [List.map_append]
    show _ = String.mk (stripOneTrailingSlash (List.map Char.toLower u₁.data ++ ['/']))
    rw [stripOneTrailingSlash_concat_slash,
      stripOneTrailingSlash_of_no_slash]
    rw [List.getLast?_map]
    intro hc
    cases hg : u₁.data.getLast? with
    | none => rw [hg] at hc; exact Option.noConfusion hc
    | some c =>
      rw [hg, Option.map_some'] at hc
      exact hlast (hg ▸ congrArg some ((charToLower_eq_slash_iff c).mp (Option.some.inj hc)))
  · intro qa qb a b ta tb sa sb pa pb heq
    have h1 : aggregateStep qa ⟨a, ta, sa, pa⟩ [] =
        [(normalizeUrl a,
          { url := a, title := ta, snippet := sa, frequency := 1, positions := [pa],
            queries := [qa], bestPosition := pa, totalScore := getCtrWeight pa })] :=
      aggregateStep_of_none qa ⟨a, ta, sa, pa⟩ [] rfl
    have hfind : assocFind?
        [(normalizeUrl a,
          ({ url := a, title := ta, snippet := sa, frequency := 1, positions := [pa],
             queries := [qa], bestPosition := pa,
             totalScore := getCtrWeight pa } : AggregatedUrl))]
        (normalizeUrl b) =
        some ({ url := a, title := ta, snippet := sa, frequency := 1, positions := [pa],
                queries := [qa], bestPosition := pa,
                totalScore := getCtrWeight pa } : AggregatedUrl) := by
      rw [← heq, assocFind?_cons]
      simp
    have h2 := aggregateStep_of_some qb ⟨b, tb, sb, pb⟩ _ _ hfind
    have hagg : aggregateResults [⟨qa, [⟨a, ta, sa, pa⟩]⟩, ⟨qb, [⟨b, tb, sb, pb⟩]⟩] =
        [(normalizeUrl a,
          ({ url := a, title := if pb < pa then tb else ta,
             snippet := if pb < pa then sb else sa, frequency := 1 + 1,
             positions := [pa, pb], queries := [qa, qb], bestPosition := min pa pb,
             totalScore := getCtrWeight pa + getCtrWeight pb } : AggregatedUrl))] := by
      show aggregateStep qb ⟨b, tb, sb, pb⟩ (aggregateStep qa ⟨a, ta, sa, pa⟩ []) = _
      rw [h1, h2]
      simp [assocUpdate, heq]
    rw [hagg]
    constructor
    · rfl
    · rw [assocFind?_cons]
      simp [heq]

/-- Witness for `normalizeUrl_merge_spec`: `http://example.com/x` and
`http://www.example.com/x` (host prefixed by one `www.`, shorter host not
itself `www.`-prefixed) normalize to one key, and a two-query batch containing
both merges into a single entry. -/
theorem normalizeUrl_merge_spec_witness :
    (parseUrl "http://example.com/x" = some ⟨"example.com", "/x", ""⟩ ∧
      parseUrl "http://www.example.com/x" = some ⟨"www.example.com", "/x", ""⟩ ∧
      ("www.example.com" : String).data =
        'w' :: 'w' :: 'w' :: '.' :: ("example.com" : String).data ∧
      startsWithWww ("example.com" : String).data = false ∧
      normalizeUrl "http://example.com/x" = normalizeUrl "http://www.example.com/x") ∧
    (aggregateResults
        [⟨"q1", [⟨"http://example.com/x", "T1", "S1", 1⟩]⟩,
         ⟨"q2", [⟨"http://www.example.com/x", "T2", "S2", 2⟩]⟩]).length = 1 := by
  have hkey : normalizeUrl "http://example.com/x" = normalizeUrl "http://www.example.com/x" :=
    normalizeUrl_merge_spec.2.1 "http://example.com/x" "http://www.example.com/x"
      ⟨"example.com", "/x", ""⟩ ⟨"www.example.com", "/x", ""⟩
      (by decide) (by decide) (by decide) (by decide) rfl rfl
  exact ⟨⟨by decide, by decide, by decide, by decide, hkey⟩,
    (normalizeUrl_merge_spec.2.2.2.2.2 "q1" "q2" "http://example.com/x"
      "http://www.example.com/x" "T1" "T2" "S1" "S2" 1 2 hkey).1⟩

/-- C10: `normalizeUrl` is total by construction (in the source the `URL`
constructor's throw is caught; here parse failure is the `none` branch), so
aggregation never fails on a malformed identifier.  On any unparseable input
it returns the lowercased raw string with one trailing slash stripped; on any
parseable input whose path is empty or `/`, the root path is preserved as `/`
(the `|| '/'` fallback), never stripped to the empty string. -/
theorem normalizeUrl_total_spec :
    (∀ u : String, parseUrl u = none →
      normalizeUrl u = ⟨stripOneTrailingSlash (toLowerChars u.data)⟩) ∧
    (∀ (u : String) (p : ParsedUrl), parseUrl u = some p →
      (p.pathname.data = [] ∨ p.pathname.data = ['/']) →
      normalizeUrl u =
        ⟨toLowerChars (stripLeadingWww p.hostname.data ++ ['/'] ++ p.search.data)⟩) := by
  constructor
  · intro u h
    unfold normalizeUrl
    rw [h]
  · intro u p h hpath
    unfold normalizeUrl
    rw [h]
    show String.mk (toLowerChars (_ ++ _ ++ _)) = String.mk (toLowerChars (_ ++ _ ++ _))
    rcases hpath with hpath | hpath <;>
      rw [hpath] <;>
      rfl

/-- Witness for `normalizeUrl_total_spec`: the malformed identifier
`"Not A Url/"` falls back to lowercasing and slash-stripping, and the root
URL `http://www.Example.com` keeps its `/` path. -/
theorem normalizeUrl_total_spec_witness :
    (parseUrl "Not A Url/" = none ∧
      normalizeUrl "Not A Url/" = ⟨stripOneTrailingSlash (toLowerChars ("Not A Url/" : String).data)⟩) ∧
    (parseUrl "http://www.Example.com" = some ⟨"www.example.com", "", ""⟩ ∧
      (("" : String).data = [] ∨ ("" : String).data = ['/']) ∧
      normalizeUrl "http://www.Example.com" =
        ⟨toLowerChars (stripLeadingWww ("www.example.com" : String).data ++ ['/'] ++
          ("" : String).data)⟩) :=
  ⟨⟨by decide, normalizeUrl_total_spec.1 "Not A Url/" (by decide)⟩,
    ⟨by decide, Or.inl rfl,
      normalizeUrl_total_spec.2 "http://www.Example.com" ⟨"www.example.com", "", ""⟩
        (by decide) (Or.inl rfl)⟩⟩

theorem retryRunAux_fst_eq_op (f : ε → Bool) (op : ℕ → Except ε α) :
    ∀ (remaining attempt : ℕ),
      (retryRunAux f op remaining attempt).1 = op (retryRunAux f op remaining attempt).2 := by
  intro remaining
  induction remaining with
  | zero =>
    intro attempt
    simp only [retryRunAux]
    cases h : op attempt <;> simp [h]
  | succ r ih =>
    intro attempt
    simp only [retryRunAux]
    cases h : op attempt with
    | ok v => simp [h]
    | error e =>
      by_cases hf : f e = true
      · simpa [hf] using ih (attempt + 1)
      · simp [h, hf]

theorem retryRunAux_snd_le (f : ε → Bool) (op : ℕ → Except ε α) :
    ∀ (remaining attempt : ℕ),
      attempt ≤ (retryRunAux f op remaining attempt).2 ∧
      (retryRunAux f op remaining attempt).2 ≤ attempt + remaining := by
  intro remaining
  induction remaining with
  | zero =>
    intro attempt
    simp only [retryRunAux]
    cases h : op attempt <;> simp
  | succ r ih =>
    intro attempt
    simp only [retryRunAux]
    cases h : op attempt with
    | ok v => simp
    | error e =>
      dsimp only
      by_cases hf : f e = true
      · have := ih (attempt + 1)
        rw [if_pos hf]
        omega
      · rw [if_neg hf]
        simp

theorem retryRunAux_retried (f : ε → Bool) (op : ℕ → Except ε α) :
    ∀ (remaining attempt a : ℕ), attempt ≤ a →
      a < (retryRunAux f op remaining attempt).2 →
      ∃ e, op a = .error e ∧ f e = true ∧ a < attempt + remaining := by
  intro remaining
  induction remaining with
  | zero =>
    intro attempt a ha hlt
    exfalso
    simp only [retryRunAux] at hlt
    cases h : op attempt <;> rw [h] at hlt <;> simp at hlt <;> omega
  | succ r ih =>
    intro attempt a ha hlt
    simp only [retryRunAux] at hlt
    cases h : op attempt with
    | ok v =>
      rw [h] at hlt
      simp at hlt
      omega
    | error e =>
      rw [h] at hlt
      dsimp only at hlt
      by_cases hf : f e = true
      · rw [if_pos hf] at hlt
        rcases Nat.eq_or_lt_of_le ha with rfl | ha'
        · exact ⟨e, h, hf, by omega⟩
        · obtain ⟨e', he', hf', hb⟩ := ih (attempt + 1) a ha' hlt
          exact ⟨e', he', hf', by omega⟩
      · rw [if_neg hf] at hlt
        simp at hlt
        omega

theorem retryRunAux_error_terminal (f : ε → Bool) (op : ℕ → Except ε α) :
    ∀ (remaining attempt : ℕ) (e : ε),
      (retryRunAux f op remaining attempt).1 = .error e →
      f e = false ∨ (retryRunAux f op remaining attempt).2 = attempt + remaining := by
  intro remaining
  induction remaining with
  | zero =>
    intro attempt e he
    right
    simp only [retryRunAux] at he ⊢
    cases h : op attempt <;> rw [h] at he <;> simp at he ⊢
  | succ r ih =>
    intro attempt e he
    simp only [retryRunAux] at he ⊢
    cases h : op attempt with
    | ok v => rw [h] at he; simp at he
    | error e' =>
      rw [h] at he
      dsimp only at he ⊢
      by_cases hf : f e' = true
      · rw [if_pos hf] at he ⊢
        rcases ih (attempt + 1) e he with hl | hr
        · exact Or.inl hl
        · exact Or.inr (by omega)
      · rw [if_neg hf] at he ⊢
        simp only [Prod.fst] at he
        obtain rfl : e' = e := by
          simpa using he
        exact Or.inl (Bool.eq_false_iff.mpr (fun hc => hf hc))

/-- C8: the retry executor (shared shape of `ResearchClient.executeResearch`
and `processContentWithLLM`, both with `maxRetries = 3`) retries only failures
its classifier marks retryable and only while attempts remain below the
ceiling; a non-retryable failure is terminal the moment it occurs; the final
outcome is exactly the last attempt's outcome, and a final raw failure is
returned to the caller as a tagged `StructuredError` result (`Except`), not
raised; in particular an Auth failure (HTTP 401) is non-retryable for both the
research client and the LLM extractor and terminates on attempt 0 with no
retry. -/
theorem retry_policy_spec {ε α : Type} (f : ε → Bool) (classify : ε → StructuredError)
    (maxRetries : ℕ) (op : ℕ → Except ε α) :
    ((retryRun f maxRetries op).2 ≤ maxRetries) ∧
    (∀ a, a < (retryRun f maxRetries op).2 →
      ∃ e, op a = .error e ∧ f e = true ∧ a < maxRetries) ∧
    ((retryRun f maxRetries op).1 = op (retryRun f maxRetries op).2) ∧
    (∀ e, (retryRun f maxRetries op).1 = .error e →
      f e = false ∨ (retryRun f maxRetries op).2 = maxRetries) ∧
    (∀ e, op 0 = .error e → f e = false → retryRun f maxRetries op = (.error e, 0)) ∧
    (∀ e, (retryRun f maxRetries op).1 = .error e →
      (executeWithRetries classify f maxRetries op).1 = .error (classify e)) ∧
    (RESEARCH_RETRY_CONFIG_maxRetries = 3 ∧ LLM_RETRY_CONFIG_maxRetries = 3) ∧
    (isRetryableResearchError researchAuthError = false ∧
      retryRun isRetryableResearchError RESEARCH_RETRY_CONFIG_maxRetries
        (fun _ => (.error researchAuthError : Except RawError Unit)) =
        (.error researchAuthError, 0)) ∧
    (isRetryableLLMError llmAuthError = false ∧
      retryRun isRetryableLLMError LLM_RETRY_CONFIG_maxRetries
        (fun _ => (.error llmAuthError : Except LLMRawError Unit)) =
        (.error llmAuthError, 0)) := by
  have hterm0 : ∀ {ε' α' : Type} (f' : ε' → Bool) (mr : ℕ) (op' : ℕ → Except ε' α')
      (e : ε'), op' 0 = .error e → f' e = false → retryRun f' mr op' = (.error e, 0) := by
    intro ε' α' f' mr op' e he hf
    unfold retryRun
    cases mr with
    | zero => simp [retryRunAux, he]
    | succ r => simp [retryRunAux, he, hf]
  refine ⟨?_, ?_, retryRunAux_fst_eq_op f op maxRetries 0, ?_, ?_, ?_, ⟨rfl, rfl⟩, ?_, ?_⟩
  · simpa using (retryRunAux_snd_le f op maxRetries 0).2
  · intro a ha
    simpa using retryRunAux_retried f op maxRetries 0 a (Nat.zero_le a) ha
  · intro e he
    have := retryRunAux_error_terminal f op maxRetries 0 e he
    simpa using this
  · intro e he hf
    exact hterm0 f maxRetries op e he hf
  · intro e he
    simp only [executeWithRetries]
    rw [he]
  · exact ⟨by decide, hterm0 _ _ _ _ rfl (by decide)⟩
  · exact ⟨by decide, hterm0 _ _ _ _ rfl (by decide)⟩

/-- Witness for `retry_policy_spec`: with every attempt failing with the
research client's Auth error, the executor stops at attempt 0 and returns the
classified failure as a tagged result. -/
theorem retry_policy_spec_witness :
    ((fun _ => (.error researchAuthError : Except RawError Unit)) 0 =
        .error researchAuthError ∧
      isRetryableResearchError researchAuthError = false) ∧
    retryRun isRetryableResearchError 3
      (fun _ => (.error researchAuthError : Except RawError Unit)) =
      (.error researchAuthError, 0) :=
  ⟨⟨rfl, by decide⟩,
    (retry_policy_spec isRetryableResearchError
        (fun _ => ⟨ErrorCode.AUTH_ERROR, "Unauthorized", false⟩) 3
        (fun _ => (.error researchAuthError : Except RawError Unit))).2.2.2.2.1
      researchAuthError rfl (by decide)⟩

end ResearchPowerpack

